import Mathlib

/-!
# md-server: the article store handlers

A shallow embedding of `src/main.go`: the three HTTP handlers
`createOrUpdateArticle`, `getArticles` and `deleteArticle`, together with the
data model (`Article`, `Paragraph`, `ParaType`).

The handlers talk to a MySQL database through GORM.  The database is embedded
as an explicit state (`DB`): two tables, each listed by increasing primary key
(a listing of the rows, not the order of any query result) with its
auto-increment counter.  Every GORM call made by the source is a function
on that state, listed next to the source line it stands for:

* `First`    — `db.Where("name = ?", article.Name).First(&article)`
* `Replace`  — `db.Model(&article).Association("Content").Replace(article.Content)`
* `Create`   — `db.Create(&article)`
* `Find`     — `db.Preload("Content").Order("id DESC").Find(&articles)`
* `Delete`   — `db.Delete(&Article{ID: ...})`

Modelling choices, fixed once here:

* identifiers and timestamps are natural numbers; `0` is Go's zero value (an
  absent `ID`, the zero `time.Time`); auto-increment exhaustion is not modelled;
* `name = ?` is evaluated by MySQL under the collation of the column, which
  the source never sets: the collation is a parameter, `Collation`;
* the preload query has no `ORDER BY` (`Order("id DESC")` belongs to the
  articles query only), so the order of its rows is the backend's choice: a
  parameter, `RowOrder`;
* `AutoMigrate` with the default configuration declares the foreign key from
  `paragraphs.article_id` to `articles.id`, without a cascade; MySQL refuses
  to delete an article row that a paragraph row refers to;
* an error the backend reports for reasons outside the table model (connection
  loss, a failed transaction) is an input, `Faults`: one optional error
  message per storage statement;
* the request body is given as the result of `c.ShouldBindJSON(&article)`.
-/

namespace MdServer

/-! ## Data model (`src/main.go`, lines 20-42) -/

/-- Paragraph type: `type ParaType string`. -/
abbrev ParaType := String

def PRIMARY_HEADER : ParaType := "PRIMARY_HEADER"
def SECONDARY_HEADER : ParaType := "SECONDARY_HEADER"
def TEXT : ParaType := "TEXT"
def CODE : ParaType := "CODE"

/-- Go struct `Paragraph`; field `Type_` is the source field `Type`, a reserved word here. -/
structure Paragraph where
  ID : Nat
  ArticleID : Nat
  Type_ : ParaType
  Content : String
  Metadata : String
deriving DecidableEq, Repr

/-- Go struct `Article`. -/
structure Article where
  ID : Nat
  CreatedAt : Nat
  Name : String
  Content : List Paragraph
deriving DecidableEq, Repr

/-! ## The database -/

/-- A row of table `articles` (columns `id`, `created_at`, `name`). -/
structure ArticleRow where
  id : Nat
  created_at : Nat
  name : String
deriving DecidableEq, Repr

/-- A row of table `paragraphs`; `article_id` is a nullable column. -/
structure ParagraphRow where
  id : Nat
  article_id : Option Nat
  type : ParaType
  content : String
  metadata : String
deriving DecidableEq, Repr

/-- The database state behind the global `db` handle. -/
structure DB where
  articles : List ArticleRow
  paragraphs : List ParagraphRow
  nextArticleID : Nat
  nextParagraphID : Nat
deriving DecidableEq, Repr

/-- The database right after `AutoMigrate` on a fresh schema. -/
def DB.empty : DB := ⟨[], [], 1, 1⟩

/-- Errors injected by the backend, one slot per storage statement issued by
the handlers.  `none` means the statement runs normally. -/
structure Faults where
  first : Option String
  replaceSave : Option String
  replaceClear : Option String
  create : Option String
  find : Option String
  preload : Option String
  delete : Option String
deriving DecidableEq, Repr

/-- The backend never fails. -/
def Faults.none : Faults := ⟨.none, .none, .none, .none, .none, .none, .none⟩

/-- The column collation under which MySQL decides `name = ?`: `true` when the
two names compare equal.  The schema is created by `AutoMigrate` and the
source sets no collation, so it is whatever the server defaults to. -/
abbrev Collation := String → String → Bool

/-- The order in which the backend hands back the rows of a query without
`ORDER BY`: some rearrangement of the rows of the table. -/
structure RowOrder where
  scan : List ParagraphRow → List ParagraphRow
  scan_perm : ∀ rows, (scan rows).Perm rows

/-- Table invariants of a database state: primary keys are positive, strictly
increasing in table order and below the auto-increment counter, which starts
at 1; a paragraph's `article_id` is below the article counter. -/
structure DB.WF (s : DB) : Prop where
  articles_sorted : (s.articles.map (·.id)).Pairwise (· < ·)
  articles_bound : ∀ a ∈ s.articles, 0 < a.id ∧ a.id < s.nextArticleID
  paragraphs_sorted : (s.paragraphs.map (·.id)).Pairwise (· < ·)
  paragraphs_bound : ∀ p ∈ s.paragraphs, 0 < p.id ∧ p.id < s.nextParagraphID
  owner_bound : ∀ p ∈ s.paragraphs, ∀ i, p.article_id = some i → i < s.nextArticleID
  next_pos : 0 < s.nextArticleID ∧ 0 < s.nextParagraphID

/-- The foreign key `paragraphs.article_id → articles.id` declared by
`AutoMigrate`: a paragraph row refers to no article or to a stored one. -/
def DB.FK (s : DB) : Prop :=
  ∀ p ∈ s.paragraphs, ∀ i, p.article_id = some i → ∃ a ∈ s.articles, a.id = i

/-! ## Storage statements -/

/-- Insert an article row at its place in primary-key order. -/
def insertArticleRow (r : ArticleRow) : List ArticleRow → List ArticleRow
  | [] => [r]
  | x :: xs => if r.id < x.id then r :: x :: xs else x :: insertArticleRow r xs

/-- Insert a paragraph row at its place in primary-key order. -/
def insertParagraphRow (r : ParagraphRow) : List ParagraphRow → List ParagraphRow
  | [] => [r]
  | x :: xs => if r.id < x.id then r :: x :: xs else x :: insertParagraphRow r xs

/-- `db.Where("name = ?", article.Name).First(&article)`:
`SELECT * FROM articles WHERE name = ? [AND id = ?] ORDER BY id LIMIT 1`.
The comparison of names is the collation's.  GORM adds the primary-key
condition when the destination struct already carries a non-zero `ID`.  No
row gives `record not found`. -/
def First (coll : Collation) (fault : Option String) (s : DB) (article : Article) :
    Except String ArticleRow :=
  match fault with
  | some e => .error e
  | none =>
    match s.articles.find?
      (fun r => coll r.name article.Name && (article.ID == 0 || r.id == article.ID)) with
    | some r => .ok r
    | none => .error "record not found"

/-- One row of the association upsert
`INSERT INTO paragraphs ... ON DUPLICATE KEY UPDATE article_id = VALUES(article_id)`:
a paragraph without `ID` gets the next auto-increment value; one whose `ID`
is already a row only has that row's `article_id` rewritten; otherwise the
row is inserted under the given `ID`, which moves the counter past it.  Rows
are processed in the order of the slice.  The state carries the table, the
counter and the identifiers of the rows saved so far. -/
def saveParagraph (articleID : Nat) (st : List ParagraphRow × Nat × List Nat) (q : Paragraph) :
    List ParagraphRow × Nat × List Nat :=
  let (rows, next, ids) := st
  if q.ID = 0 then
    (insertParagraphRow ⟨next, some articleID, q.Type_, q.Content, q.Metadata⟩ rows, next + 1, ids ++ [next])
  else if rows.any (fun r => r.id == q.ID) then
    (rows.map (fun r => if r.id = q.ID then { r with article_id := some articleID } else r), next, ids ++ [q.ID])
  else
    (insertParagraphRow ⟨q.ID, some articleID, q.Type_, q.Content, q.Metadata⟩ rows, max next (q.ID + 1), ids ++ [q.ID])

/-- Save the paragraphs of an article, in order, with the foreign key set to
the owning article. -/
def saveParagraphs (articleID : Nat) (rows : List ParagraphRow) (next : Nat) (content : List Paragraph) :
    List ParagraphRow × Nat × List Nat :=
  content.foldl (saveParagraph articleID) (rows, next, [])

/-- `db.Model(&article).Association("Content").Replace(content)` for a
has-many relation: first the new paragraphs are saved with `article_id` set to
the article, then `UPDATE paragraphs SET article_id = NULL WHERE article_id = ?
AND id NOT IN (saved ids)`.  Old rows are detached, not deleted.  The two
statements are separate; a failure of the second leaves the first applied.
Returns the error, if any, and the resulting state. -/
def Replace (f : Faults) (s : DB) (article : Article) (content : List Paragraph) : Option String × DB :=
  match f.replaceSave with
  | some e => (some e, s)
  | none =>
    let (rows, next, ids) := saveParagraphs article.ID s.paragraphs s.nextParagraphID content
    let s1 : DB := { s with paragraphs := rows, nextParagraphID := next }
    match f.replaceClear with
    | some e => (some e, s1)
    | none =>
      (none, { s1 with paragraphs := rows.map (fun r =>
        if r.article_id = some article.ID ∧ r.id ∉ ids then { r with article_id := none } else r) })

/-- `db.Create(&article)`: one transaction inserting the article row (a fresh
identifier when `ID` is zero, a duplicate-key error when `ID` is taken;
`created_at` is set to the current time when zero, by `autoCreateTime`) and
then saving its paragraphs. -/
def Create (fault : Option String) (now : Nat) (s : DB) (article : Article) : Except String DB :=
  match fault with
  | some e => .error e
  | none =>
    if s.articles.any (fun r => r.id == article.ID) then
      .error "Error 1062: Duplicate entry for key PRIMARY"
    else
      let id := if article.ID = 0 then s.nextArticleID else article.ID
      let created := if article.CreatedAt = 0 then now else article.CreatedAt
      let (rows, next, _) := saveParagraphs id s.paragraphs s.nextParagraphID article.Content
      .ok { articles := insertArticleRow ⟨id, created, article.Name⟩ s.articles
            paragraphs := rows
            nextArticleID := max s.nextArticleID (id + 1)
            nextParagraphID := next }

/-- A paragraph row scanned into the Go struct of an article's `Content`. -/
def loadRow (articleID : Nat) (r : ParagraphRow) : Paragraph :=
  ⟨r.id, articleID, r.type, r.content, r.metadata⟩

/-- The paragraphs eagerly loaded for one article:
`SELECT * FROM paragraphs WHERE article_id IN (...)`, no `ORDER BY`; GORM
appends each returned row to its owner, in the order the rows come back. -/
def contentOf (o : RowOrder) (s : DB) (articleID : Nat) : List Paragraph :=
  ((o.scan s.paragraphs).filter (fun r => r.article_id == some articleID)).map (loadRow articleID)

/-- `db.Preload("Content").Order("id DESC").Find(&articles)`: the value left in
`articles`.  When the main query fails the slice stays empty; when only the
preload query fails the articles are there without their paragraphs. -/
def Find (f : Faults) (o : RowOrder) (s : DB) : List Article :=
  match f.find with
  | some _ => []
  | none =>
    match f.preload with
    | some _ => s.articles.reverse.map (fun r => ⟨r.id, r.created_at, r.name, []⟩)
    | none => s.articles.reverse.map (fun r => ⟨r.id, r.created_at, r.name, contentOf o s r.id⟩)

/-- `db.Delete(&Article{ID: id})`: `DELETE FROM articles WHERE id = ?`.  With a
zero primary key GORM has no condition to build and refuses the statement
(`ErrMissingWhereClause`) before reaching the backend.  MySQL refuses the
statement when a paragraph row refers to the article (the foreign key has no
cascade).  Only the `articles` table is written. -/
def Delete (fault : Option String) (s : DB) (id : Nat) : Except String DB :=
  if id = 0 then .error "WHERE conditions required"
  else
    match fault with
    | some e => .error e
    | none =>
      if s.paragraphs.any (fun r => r.article_id == some id) then
        .error "Error 1451: Cannot delete or update a parent row: a foreign key constraint fails"
      else .ok { s with articles := s.articles.filter (fun r => r.id != id) }

/-- Value of a string of decimal digits. -/
def decimalValue (cs : List Char) : Nat :=
  cs.foldl (fun n c => 10 * n + (c.toNat - 48)) 0

/-- `strconv.ParseUint(s, 10, bitSize)`: `none` stands for a non-nil error
(empty input, a character that is not an ASCII digit, or a value that does not
fit `bitSize` bits). -/
def ParseUint (s : String) (bitSize : Nat) : Option Nat :=
  if s.data = [] then none
  else if s.data.all Char.isDigit then
    if decimalValue s.data < 2 ^ bitSize then some (decimalValue s.data) else none
  else none

/-! ## HTTP responses and handlers (`src/main.go`, lines 72-131) -/

/-- Body of a JSON response. -/
inductive Body where
  | status (s : String)
  | error (msg : String)
  | articles (l : List Article)
deriving DecidableEq, Repr

/-- HTTP status code and JSON body handed to `c.JSON`. -/
structure Response where
  code : Nat
  body : Body
deriving DecidableEq, Repr

/-- Handler of `POST /articles`.  `body` is the outcome of
`c.ShouldBindJSON(&article)`; `now` is the clock read by `autoCreateTime`. -/
def createOrUpdateArticle (coll : Collation) (f : Faults) (now : Nat) (s : DB)
    (body : Except String Article) : Response × DB :=
  match body with
  | .error e => (⟨400, .error e⟩, s)
  | .ok article =>
    -- Check if article already exists
    match First coll f.first s article with
    | .ok row =>
      -- Article exists, update it
      let article : Article := { article with ID := row.id, CreatedAt := row.created_at, Name := row.name }
      match Replace f s article article.Content with
      | (some e, s1) => (⟨500, .error e⟩, s1)
      | (none, s1) => (⟨200, .status "updated"⟩, s1)
    | .error _ =>
      -- Article does not exist, create a new one
      match Create f.create now s article with
      | .error e => (⟨500, .error e⟩, s)
      | .ok s1 => (⟨200, .status "created"⟩, s1)

/-- Handler of `GET /articles`.  The result of `Find` is not inspected for an
error. -/
def getArticles (f : Faults) (o : RowOrder) (s : DB) : Response × DB :=
  (⟨200, .articles (Find f o s)⟩, s)

/-- Handler of `DELETE /articles/:id`; `id` is `c.Param("id")`. -/
def deleteArticle (f : Faults) (s : DB) (id : String) : Response × DB :=
  match ParseUint id 32 with
  | none => (⟨400, .error "invalid article ID"⟩, s)
  | some articleID =>
    -- Delete article
    match Delete f.delete s (articleID % 2 ^ 64) with
    | .error e => (⟨500, .error e⟩, s)
    | .ok s1 => (⟨200, .status "deleted"⟩, s1)

/-! ## Reading of "a valid unsigned integer" -/

/-- The ASCII decimal digits. -/
def asciiDigits : List Char := ['0', '1', '2', '3', '4', '5', '6', '7', '8', '9']

/-- The number written by a string of decimal digits, most significant digit
first. -/
def decimalNumber (cs : List Char) : Nat :=
  Nat.ofDigits 10 (cs.reverse.map (fun c => c.toNat - '0'.toNat))

/-- A valid unsigned integer of `w` bits, as the specification words it: a
non-empty string of ASCII decimal digits whose value fits `w` bits. -/
def ValidUint (w : Nat) (id : String) : Prop :=
  id.data ≠ [] ∧ (∀ c ∈ id.data, c ∈ asciiDigits) ∧ decimalNumber id.data < 2 ^ w

instance (w : Nat) (id : String) : Decidable (ValidUint w id) := by
  unfold ValidUint; infer_instance


/-! ## Request sequences -/

/-- One request, with what the environment supplies while it is served: the
backend errors, the clock, the decoded body, the order of the preloaded rows
or the path parameter. -/
inductive Request where
  | post (f : Faults) (now : Nat) (body : Except String Article)
  | get (f : Faults) (o : RowOrder)
  | delete (f : Faults) (id : String)

/-- The store after serving one request. -/
def step (coll : Collation) (s : DB) : Request → DB
  | .post f now body => (createOrUpdateArticle coll f now s body).2
  | .get f o => (getArticles f o s).2
  | .delete f id => (deleteArticle f s id).2

/-- The store after serving a sequence of requests, one after the other. -/
def run (coll : Collation) (s : DB) (reqs : List Request) : DB := reqs.foldl (step coll) s

/-- The four paragraph types named by the constants of `ParaType`. -/
def isParaType (t : ParaType) : Prop :=
  t = PRIMARY_HEADER ∨ t = SECONDARY_HEADER ∨ t = TEXT ∨ t = CODE

instance (t : ParaType) : Decidable (isParaType t) := by
  unfold isParaType; infer_instance

/-- No two stored Articles have the same name. -/
def NamesUnique (s : DB) : Prop := (s.articles.map (·.name)).Nodup

/-! ## Auxiliary definitions for the statements -/

/-- The Paragraph rows that refer to an article, listed by increasing
identifier (the order of the table). -/
def attachedRows (s : DB) (articleID : Nat) : List ParagraphRow :=
  s.paragraphs.filter (fun r => r.article_id == some articleID)

/-- The rows inserted for a list of paragraphs that carry no `ID`: consecutive
auto-increment values from `next` on, all owned by `articleID`. -/
def freshRows (articleID : Nat) : Nat → List Paragraph → List ParagraphRow
  | _, [] => []
  | next, q :: qs =>
    ⟨next, some articleID, q.Type_, q.Content, q.Metadata⟩ :: freshRows articleID (next + 1) qs

/-- The effect of the `UPDATE ... SET article_id = NULL` of `Replace` on one old
row. -/
def detach (articleID : Nat) (r : ParagraphRow) : ParagraphRow :=
  if r.article_id = some articleID then { r with article_id := none } else r

/-! ## Sample collations, row orders and states -/

/-- A collation that tells names apart exactly (a binary collation). -/
def binaryCollation : Collation := fun a b => a == b

/-- A collation that ignores the case of ASCII letters, as the default
collations of MySQL do. -/
def caseInsensitive : Collation :=
  fun a b => a.data.map Char.toLower == b.data.map Char.toLower

/-- Rows come back in primary-key order. -/
def RowOrder.byId : RowOrder := ⟨fun rows => rows, fun rows => List.Perm.refl rows⟩

/-- Rows come back starting from the `n`-th row of the table and wrapping
around. -/
def RowOrder.rotate (n : Nat) : RowOrder :=
  ⟨fun rows => rows.drop n ++ rows.take n, fun rows =>
    List.perm_append_comm.trans (by rw [List.take_append_drop])⟩

/-- A store with one article that owns one paragraph. -/
def sampleDB : DB :=
  { articles := [⟨1, 5, "a"⟩]
    paragraphs := [⟨1, some 1, "TEXT", "hello", ""⟩]
    nextArticleID := 2
    nextParagraphID := 2 }

/-- The sample store after one more Article with four paragraphs. -/
def sampleDB2 : DB :=
  { articles := [⟨1, 5, "a"⟩, ⟨2, 9, "b"⟩]
    paragraphs := [⟨1, some 1, "TEXT", "hello", ""⟩, ⟨2, some 2, "PRIMARY_HEADER", "t", ""⟩,
      ⟨3, some 2, "SECONDARY_HEADER", "u", ""⟩, ⟨4, some 2, "TEXT", "v", "w"⟩,
      ⟨5, some 2, "CODE", "x", "go"⟩]
    nextArticleID := 3
    nextParagraphID := 6 }

/-! # Theorems -/

/-! ## Lemmas on `ParseUint` -/

theorem isDigit_iff_mem_asciiDigits (c : Char) : c.isDigit = true ↔ c ∈ asciiDigits := by
  constructor
  · intro h
    have hb : 48 ≤ c.toNat ∧ c.toNat ≤ 57 := by
      simp only [Char.isDigit, Bool.and_eq_true, decide_eq_true_eq, ge_iff_le, UInt32.le_def] at h
      exact h
    have hc : c = Char.ofNat c.toNat := (Char.ofNat_toNat c).symm
    obtain ⟨h1, h2⟩ := hb
    generalize c.toNat = n at hc h1 h2
    subst hc
    interval_cases n <;> decide
  · intro h
    simp only [asciiDigits, List.mem_cons, List.mem_singleton] at h
    simp only [List.not_mem_nil, or_false] at h
    rcases h with h | h | h | h | h | h | h | h | h | h <;> subst h <;> rfl

theorem decimalValue_eq_decimalNumber (cs : List Char) : decimalValue cs = decimalNumber cs := by
  induction cs using List.reverseRecOn with
  | nil => rfl
  | append_singleton init c ih =>
    unfold decimalValue decimalNumber at *
    simp only [List.foldl_append, List.foldl_cons, List.foldl_nil, List.reverse_append,
      List.reverse_cons, List.reverse_nil, List.nil_append, List.singleton_append, List.map_cons,
      Nat.ofDigits_cons]
    rw [ih]
    have : ('0').toNat = 48 := rfl
    omega

theorem ParseUint_eq_some_iff (id : String) (w n : Nat) :
    ParseUint id w = some n ↔ ValidUint w id ∧ decimalNumber id.data = n := by
  unfold ParseUint ValidUint
  rw [← decimalValue_eq_decimalNumber]
  by_cases h1 : id.data = []
  · simp [h1]
  · by_cases h2 : id.data.all Char.isDigit = true
    · have h2b : ∀ c ∈ id.data, c ∈ asciiDigits := by
        intro c hc
        exact (isDigit_iff_mem_asciiDigits c).1 (List.all_eq_true.1 h2 c hc)
      by_cases h3 : decimalValue id.data < 2 ^ w
      · simp only [h1, h2, h3, if_true, if_false, ite_true, ite_false, Option.some.injEq, not_false_eq_true, true_and, ne_eq]
        exact ⟨fun h => ⟨⟨h2b, trivial⟩, h⟩, fun h => h.2⟩
      · simp [h1, h2, h3]
    · have h2b : ¬ ∀ c ∈ id.data, c ∈ asciiDigits := by
        intro hall
        apply h2
        exact List.all_eq_true.2 (fun c hc => (isDigit_iff_mem_asciiDigits c).2 (hall c hc))
      simp [h1, h2, h2b]

theorem ParseUint_eq_none_iff (id : String) (w : Nat) :
    ParseUint id w = none ↔ ¬ ValidUint w id := by
  constructor
  · intro h hv
    have := (ParseUint_eq_some_iff id w _).2 ⟨hv, rfl⟩
    rw [h] at this
    exact Option.noConfusion this
  · intro h
    cases hp : ParseUint id w with
    | none => rfl
    | some n => exact absurd ((ParseUint_eq_some_iff id w n).1 hp).1 h

/-! ## `deleteArticle` -/

theorem sampleDB_WF : sampleDB.WF :=
  ⟨by decide, by decide, by decide, by decide, by decide, by decide⟩

theorem sampleDB_FK : sampleDB.FK := by
  unfold DB.FK; decide

theorem sampleDB2_WF : sampleDB2.WF :=
  ⟨by decide, by decide, by decide, by decide, by decide, by decide⟩

theorem sampleDB2_FK : sampleDB2.FK := by
  unfold DB.FK; decide

theorem DB_eta (s : DB) : ({ s with articles := s.articles } : DB) = s := by
  cases s; rfl

theorem deleteArticle_eq_of_parse {id : String} {n : Nat} (f : Faults) (s : DB)
    (h : ParseUint id 32 = some n) :
    deleteArticle f s id =
      match Delete f.delete s n with
      | .error e => (⟨500, .error e⟩, s)
      | .ok s1 => (⟨200, .status "deleted"⟩, s1) := by
  have hv := ((ParseUint_eq_some_iff id 32 n).1 h)
  have hlt : n < 2 ^ 32 := by rw [← hv.2]; exact hv.1.2.2
  have hmod : n % 2 ^ 64 = n := Nat.mod_eq_of_lt (by omega)
  unfold deleteArticle
  rw [h]
  simp only [hmod]

theorem Delete_ok_iff (fault : Option String) (s s1 : DB) (id : Nat) :
    Delete fault s id = .ok s1 ↔
      id ≠ 0 ∧ fault = none ∧ (∀ r ∈ s.paragraphs, r.article_id ≠ some id) ∧
      s1 = { s with articles := s.articles.filter (fun r => r.id != id) } := by
  unfold Delete
  by_cases h0 : id = 0
  · simp [h0]
  · cases fault with
    | some e => simp [h0]
    | none =>
      by_cases hany : s.paragraphs.any (fun r => r.article_id == some id) = true
      · simp only [h0, if_false, hany, if_true, ne_eq, not_false_eq_true, true_and]
        constructor
        · intro h; exact Except.noConfusion h
        · rintro ⟨hall, _⟩
          rw [List.any_eq_true] at hany
          obtain ⟨r, hr, hri⟩ := hany
          exact absurd (by simpa using hri) (hall r hr)
      · have hall : ∀ r ∈ s.paragraphs, r.article_id ≠ some id := by
          intro r hr hri
          apply hany
          rw [List.any_eq_true]
          exact ⟨r, hr, by simpa using hri⟩
        simp only [h0, if_false, hany, ne_eq, not_false_eq_true, true_and, Except.ok.injEq,
          Bool.false_eq_true]
        constructor
        · intro h; exact ⟨hall, h.symm⟩
        · intro h; exact h.2.symm

theorem deleteArticle_paragraphs (f : Faults) (s : DB) (id : String) :
    (deleteArticle f s id).2.paragraphs = s.paragraphs := by
  unfold deleteArticle
  cases ParseUint id 32 with
  | none => rfl
  | some n =>
    simp only
    cases hD : Delete f.delete s (n % 2 ^ 64) with
    | error e => rfl
    | ok s1 =>
      have := ((Delete_ok_iff _ _ _ _).1 hD).2.2.2
      rw [this]

/-- C6 (as amended): `deleteArticle` answers 400 exactly when the `id` parameter is
not a non-empty string of ASCII decimal digits whose value fits 32 bits (the
`bitSize` passed to `strconv.ParseUint`); when it answers 400 the store is
unchanged and the response depends neither on the store nor on the backend. -/
theorem deleteArticle_badRequest_iff (f : Faults) (s : DB) (id : String) :
    ((deleteArticle f s id).1.code = 400 ↔ ¬ ValidUint 32 id) ∧
    ((deleteArticle f s id).1.code = 400 →
      (deleteArticle f s id).2 = s ∧
      ∀ (f2 : Faults) (s2 : DB),
        (deleteArticle f2 s2 id).1 = ⟨400, .error "invalid article ID"⟩ ∧
        (deleteArticle f2 s2 id).2 = s2) := by
  rw [← ParseUint_eq_none_iff]
  have key : (deleteArticle f s id).1.code = 400 → ParseUint id 32 = none := by
    intro h
    cases hp : ParseUint id 32 with
    | none => rfl
    | some n =>
      rw [deleteArticle_eq_of_parse f s hp] at h
      cases hd : Delete f.delete s n <;> rw [hd] at h <;> simp at h
  refine ⟨⟨key, ?_⟩, ?_⟩
  · intro h
    simp [deleteArticle, h]
  · intro h
    have hp := key h
    refine ⟨by simp [deleteArticle, hp], fun f2 s2 => ?_⟩
    simp [deleteArticle, hp]

/-- C6 (counterexample): `4294967296` is a non-empty string of ASCII decimal digits whose
value fits 64 bits, yet `deleteArticle` answers 400 for it. -/
theorem deleteArticle_badRequest_64bit_counterexample :
    ¬ ((deleteArticle Faults.none DB.empty "4294967296").1.code = 400 ↔
        ¬ ValidUint 64 "4294967296") := by
  decide

/-- For an `id` that `ParseUint` accepts, whose value is not 0 and is the
identifier of no stored Article, when the backend reports no failure,
`deleteArticle` answers 200 "deleted" and the store is unchanged. -/
theorem deleteArticle_absent_nonzero_id (f : Faults) (s : DB) (id : String)
    (hfk : s.FK) (hvalid : ValidUint 32 id)
    (habsent : ∀ a ∈ s.articles, a.id ≠ decimalNumber id.data)
    (hne : decimalNumber id.data ≠ 0) (hok : f.delete = none) :
    deleteArticle f s id = (⟨200, .status "deleted"⟩, s) := by
  have hp : ParseUint id 32 = some (decimalNumber id.data) :=
    (ParseUint_eq_some_iff id 32 _).2 ⟨hvalid, rfl⟩
  rw [deleteArticle_eq_of_parse f s hp]
  have hfilter : s.articles.filter (fun r => r.id != decimalNumber id.data) = s.articles := by
    rw [List.filter_eq_self]
    intro a ha
    simpa using habsent a ha
  have hD : Delete f.delete s (decimalNumber id.data) = .ok s := by
    rw [Delete_ok_iff]
    refine ⟨hne, hok, ?_, by rw [hfilter, DB_eta]⟩
    intro r hr hri
    obtain ⟨a, ha, hai⟩ := hfk r hr _ hri
    exact habsent a ha hai
  rw [hD]

/-- C5 (failing input): `"0"` parses as an unsigned integer and is the identifier of no
stored Article, yet `deleteArticle` answers 500 with GORM's
`WHERE conditions required`, not 200 "deleted"; any other absent identifier,
such as `"7"`, is answered 200 "deleted". -/
theorem deleteArticle_zero_id_error :
    ValidUint 32 "0" ∧ (∀ a ∈ sampleDB.articles, a.id ≠ decimalNumber "0".data) ∧
    deleteArticle Faults.none sampleDB "0" =
      (⟨500, .error "WHERE conditions required"⟩, sampleDB) ∧
    deleteArticle Faults.none sampleDB "7" = (⟨200, .status "deleted"⟩, sampleDB) := by
  decide

/-- The sample store is the state after one `POST /articles` on the empty
store, whatever the collation. -/
theorem sampleDB_reachable (coll : Collation) :
    (createOrUpdateArticle coll Faults.none 5 DB.empty
      (.ok ⟨0, 0, "a", [⟨0, 0, "TEXT", "hello", ""⟩]⟩)).2 = sampleDB :=
  rfl

/-- The second sample store is the state after a second `POST /articles`. -/
theorem sampleDB2_reachable :
    (createOrUpdateArticle caseInsensitive Faults.none 9 sampleDB
      (.ok ⟨0, 0, "b", [⟨0, 0, PRIMARY_HEADER, "t", ""⟩, ⟨0, 0, SECONDARY_HEADER, "u", ""⟩,
        ⟨0, 0, TEXT, "v", "w"⟩, ⟨0, 0, CODE, "x", "go"⟩]⟩)).2 = sampleDB2 := by
  decide

/-- `getArticles` answers 200 whatever the backend reports; a failed main query
gives the empty list. -/
theorem getArticles_code (f : Faults) (o : RowOrder) (s : DB) :
    (getArticles f o s).1.code = 200 ∧
    (f.find ≠ none → (getArticles f o s).1.body = .articles []) := by
  refine ⟨rfl, fun h => ?_⟩
  cases hf : f.find with
  | none => exact absurd hf h
  | some e => simp [getArticles, Find, hf]

/-- C8 (failing input): the store holds one Article and the backend fails the query with
`driver: bad connection`; `getArticles` answers 200 with an empty list. -/
theorem getArticles_swallows_query_error (o : RowOrder) :
    getArticles { Faults.none with find := some "driver: bad connection" } o sampleDB =
      (⟨200, .articles []⟩, sampleDB) :=
  rfl

/-- Any lookup error, not only `record not found`, selects the create branch. -/
theorem createOrUpdateArticle_lookup_error (coll : Collation) (f : Faults) (now : Nat) (s : DB)
    (article : Article) (e : String) (hf : f.first = some e) :
    createOrUpdateArticle coll f now s (.ok article) =
      match Create f.create now s article with
      | .error e => (⟨500, .error e⟩, s)
      | .ok s1 => (⟨200, .status "created"⟩, s1) := by
  simp [createOrUpdateArticle, First, hf]

/-- C7 (failing input): the store holds an Article named `a`; the lookup fails with
`driver: bad connection` and the insert succeeds.  The answer is 200
"created" and a second Article named `a` is stored, whatever the collation. -/
theorem createOrUpdateArticle_lookup_failure_creates (coll : Collation) :
    createOrUpdateArticle coll { Faults.none with first := some "driver: bad connection" } 9
      sampleDB (.ok ⟨0, 0, "a", []⟩) =
      (⟨200, .status "created"⟩,
        { articles := [⟨1, 5, "a"⟩, ⟨2, 9, "a"⟩]
          paragraphs := [⟨1, some 1, "TEXT", "hello", ""⟩]
          nextArticleID := 3
          nextParagraphID := 2 }) :=
  rfl

/-- C10 (failing input): `POST` an Article named `a`, then `POST` a payload named `a` that
carries `ID` 2.  Both answers are "created" and two Articles named `a` are
stored, whatever the collation. -/
theorem createOrUpdateArticle_duplicate_name (coll : Collation) :
    (createOrUpdateArticle coll Faults.none 5 DB.empty (.ok ⟨0, 0, "a", []⟩)) =
      (⟨200, .status "created"⟩, ⟨[⟨1, 5, "a"⟩], [], 2, 1⟩) ∧
    (createOrUpdateArticle coll Faults.none 9 ⟨[⟨1, 5, "a"⟩], [], 2, 1⟩ (.ok ⟨2, 0, "a", []⟩)) =
      (⟨200, .status "created"⟩, ⟨[⟨1, 5, "a"⟩, ⟨2, 9, "a"⟩], [], 3, 1⟩) := by
  refine ⟨rfl, ?_⟩
  simp [createOrUpdateArticle, First, Faults.none, Create, saveParagraphs, insertArticleRow]

/-! ## `getArticles` -/

theorem mem_contentOf (o : RowOrder) (s : DB) (i : Nat) (p : Paragraph) :
    p ∈ contentOf o s i ↔
      ∃ r ∈ s.paragraphs, r.article_id = some i ∧ p = ⟨r.id, i, r.type, r.content, r.metadata⟩ := by
  simp only [contentOf, List.mem_map, List.mem_filter, beq_iff_eq, (o.scan_perm _).mem_iff,
    loadRow]
  constructor
  · rintro ⟨r, ⟨hr, hi⟩, rfl⟩
    exact ⟨r, hr, hi, rfl⟩
  · rintro ⟨r, hr, hi, rfl⟩
    exact ⟨r, ⟨hr, hi⟩, rfl⟩

/-- What is loaded for an article is a rearrangement of the rows that refer to
it. -/
theorem contentOf_perm (o : RowOrder) (s : DB) (i : Nat) :
    (contentOf o s i).Perm ((attachedRows s i).map (loadRow i)) := by
  unfold contentOf attachedRows
  exact ((o.scan_perm s.paragraphs).filter _).map _

theorem attachedRows_ids_sorted (s : DB) (hwf : s.WF) (i : Nat) :
    ((attachedRows s i).map (·.id)).Pairwise (· < ·) :=
  hwf.paragraphs_sorted.sublist ((List.filter_sublist _).map _)

theorem contentOf_ids_nodup (o : RowOrder) (s : DB) (hwf : s.WF) (i : Nat) :
    ((contentOf o s i).map (·.ID)).Nodup := by
  have hp := (contentOf_perm o s i).map (·.ID)
  rw [hp.nodup_iff, List.map_map]
  have h : ((fun q : Paragraph => q.ID) ∘ loadRow i) = (fun r : ParagraphRow => r.id) := rfl
  rw [h]
  exact (attachedRows_ids_sorted s hwf i).imp (fun h => Nat.ne_of_lt h)

theorem articles_nodup (s : DB) (hwf : s.WF) : s.articles.Nodup := by
  have h : (s.articles.map (·.id)).Nodup := hwf.articles_sorted.imp (fun h => Nat.ne_of_lt h)
  exact List.Nodup.of_map _ h

/-- C3 (as amended): for every store state (tables obeying their primary keys), when
the backend answers both queries, the list returned by `getArticles` holds
every stored Article exactly once and nothing else, is strictly decreasing
in Article identifier, and each returned Article carries exactly the
Paragraph rows that refer to it, each once.  The order of the paragraphs
inside an Article is the order in which the backend hands back the rows of
the preload query, whatever that order is. -/
theorem getArticles_lists_store (f : Faults) (o : RowOrder) (s : DB) (hwf : s.WF)
    (hfind : f.find = none) (hpreload : f.preload = none) :
    ∃ l : List Article, getArticles f o s = (⟨200, .articles l⟩, s) ∧
      (l.map (fun a => (⟨a.ID, a.CreatedAt, a.Name⟩ : ArticleRow))).Perm s.articles ∧
      (∀ r ∈ s.articles,
        (l.map (fun a => (⟨a.ID, a.CreatedAt, a.Name⟩ : ArticleRow))).count r = 1) ∧
      (l.map (·.ID)).Pairwise (· > ·) ∧
      ∀ a ∈ l,
        (∀ p, p ∈ a.Content ↔ ∃ r ∈ s.paragraphs,
          r.article_id = some a.ID ∧ p = ⟨r.id, a.ID, r.type, r.content, r.metadata⟩) ∧
        a.Content.Perm ((attachedRows s a.ID).map (loadRow a.ID)) ∧
        (a.Content.map (·.ID)).Nodup := by
  refine ⟨s.articles.reverse.map
    (fun r : ArticleRow => (⟨r.id, r.created_at, r.name, contentOf o s r.id⟩ : Article)),
    by simp only [getArticles, Find, hfind, hpreload], ?_, ?_, ?_, ?_⟩
  · simp only [List.map_map, Function.comp_def, List.map_id_fun', id_eq]
    exact List.reverse_perm _
  · intro r hr
    simp only [List.map_map, Function.comp_def, List.map_id_fun', id_eq, List.count_reverse]
    exact List.count_eq_one_of_mem (articles_nodup s hwf) hr
  · simp only [List.map_map, Function.comp_def]
    rw [List.map_reverse, List.pairwise_reverse]
    exact hwf.articles_sorted.imp (fun h => h)
  · intro a ha
    simp only [List.mem_map, List.mem_reverse] at ha
    obtain ⟨r, _, rfl⟩ := ha
    exact ⟨fun p => mem_contentOf o s r.id p, contentOf_perm o s r.id,
      contentOf_ids_nodup o s hwf r.id⟩

/-- C3 (witness): the amended statement at the second sample store (two Articles, five
Paragraphs) with the rows handed back starting from row 4. -/
theorem getArticles_lists_store_witness :
    ∃ l : List Article,
      getArticles Faults.none (RowOrder.rotate 3) sampleDB2 = (⟨200, .articles l⟩, sampleDB2) ∧
      (l.map (·.ID)).Pairwise (· > ·) ∧
      ∀ a ∈ l, a.Content.Perm ((attachedRows sampleDB2 a.ID).map (loadRow a.ID)) :=
  have h := getArticles_lists_store Faults.none (RowOrder.rotate 3) sampleDB2 sampleDB2_WF rfl rfl
  h.imp (fun _ hl => ⟨hl.1, hl.2.2.2.1, fun a ha => (hl.2.2.2.2 a ha).2.1⟩)

/-- C3 (counterexample): the store holds Article 2 with Paragraphs 2, 3, 4, 5, inserted in
that order, and the backend hands back the rows of the preload query starting
from row 4.  `getArticles` returns Article 2 with its paragraphs in the order
4, 5, 2, 3, which is not increasing in paragraph identifier.  And when the
backend fails the articles query, the returned list is empty although two
Articles are stored. -/
theorem getArticles_paragraph_order_counterexample :
    (getArticles Faults.none (RowOrder.rotate 3) sampleDB2).1 =
      ⟨200, .articles
        [⟨2, 9, "b", [⟨4, 2, "TEXT", "v", "w"⟩, ⟨5, 2, "CODE", "x", "go"⟩,
            ⟨2, 2, "PRIMARY_HEADER", "t", ""⟩, ⟨3, 2, "SECONDARY_HEADER", "u", ""⟩]⟩,
          ⟨1, 5, "a", [⟨1, 1, "TEXT", "hello", ""⟩]⟩]⟩ ∧
    (∀ a ∈ Find Faults.none (RowOrder.rotate 3) sampleDB2, a.ID = 2 →
      ¬ (a.Content.map (·.ID)).Pairwise (· < ·)) ∧
    (getArticles { Faults.none with find := some "driver: bad connection" } RowOrder.byId
      sampleDB2).1 = ⟨200, .articles []⟩ := by
  decide

/-! ## Saving paragraphs that carry no identifier -/

theorem insertParagraphRow_append (r : ParagraphRow) (rows : List ParagraphRow)
    (h : ∀ x ∈ rows, x.id < r.id) : insertParagraphRow r rows = rows ++ [r] := by
  induction rows with
  | nil => rfl
  | cons x xs ih =>
    have hx : ¬ r.id < x.id := by
      have := h x (List.mem_cons_self _ _)
      omega
    simp only [insertParagraphRow, hx, if_false, List.cons_append]
    rw [ih (fun y hy => h y (List.mem_cons_of_mem _ hy))]

theorem foldl_saveParagraph_fresh (articleID : Nat) (content : List Paragraph) :
    ∀ (rows : List ParagraphRow) (next : Nat) (ids : List Nat),
      (∀ q ∈ content, q.ID = 0) → (∀ x ∈ rows, x.id < next) →
      content.foldl (saveParagraph articleID) (rows, next, ids) =
        (rows ++ freshRows articleID next content, next + content.length,
          ids ++ List.range' next content.length) := by
  induction content with
  | nil => intro rows next ids _ _; simp [freshRows]
  | cons q qs ih =>
    intro rows next ids hq hrows
    have hq0 : q.ID = 0 := hq q (List.mem_cons_self _ _)
    have hstep : saveParagraph articleID (rows, next, ids) q =
        (rows ++ [⟨next, some articleID, q.Type_, q.Content, q.Metadata⟩], next + 1,
          ids ++ [next]) := by
      simp only [saveParagraph, hq0, if_true]
      rw [insertParagraphRow_append _ _ hrows]
    rw [List.foldl_cons, hstep, ih _ _ _ (fun x hx => hq x (List.mem_cons_of_mem _ hx))]
    · simp only [freshRows, List.append_assoc, List.singleton_append, List.length_cons,
        List.range'_succ, Prod.mk.injEq, true_and]
      exact ⟨by omega, trivial⟩
    · intro x hx
      rcases List.mem_append.1 hx with h | h
      · have := hrows x h
        omega
      · simp only [List.mem_singleton] at h
        subst h
        simp

theorem saveParagraphs_fresh (articleID : Nat) (rows : List ParagraphRow) (next : Nat)
    (content : List Paragraph) (hq : ∀ q ∈ content, q.ID = 0) (hrows : ∀ x ∈ rows, x.id < next) :
    saveParagraphs articleID rows next content =
      (rows ++ freshRows articleID next content, next + content.length,
        List.range' next content.length) := by
  unfold saveParagraphs
  rw [foldl_saveParagraph_fresh articleID content rows next [] hq hrows]
  simp

theorem mem_freshRows (articleID : Nat) (content : List Paragraph) :
    ∀ (next : Nat) (r : ParagraphRow), r ∈ freshRows articleID next content →
      r.article_id = some articleID ∧ next ≤ r.id ∧ r.id < next + content.length := by
  induction content with
  | nil => intro next r h; simp [freshRows] at h
  | cons q qs ih =>
    intro next r h
    simp only [freshRows, List.mem_cons] at h
    rcases h with h | h
    · subst h
      simp
    · obtain ⟨h1, h2, h3⟩ := ih (next + 1) r h
      simp only [List.length_cons]
      exact ⟨h1, by omega, by omega⟩

theorem freshRows_fields (articleID : Nat) (content : List Paragraph) :
    ∀ next : Nat, (freshRows articleID next content).map (fun r => (r.type, r.content, r.metadata)) =
      content.map (fun q => (q.Type_, q.Content, q.Metadata)) := by
  induction content with
  | nil => intro next; rfl
  | cons q qs ih => intro next; simp [freshRows, ih]

theorem freshRows_ids (articleID : Nat) (content : List Paragraph) :
    ∀ next : Nat, (freshRows articleID next content).map (·.id) =
      List.range' next content.length := by
  induction content with
  | nil => intro next; rfl
  | cons q qs ih => intro next; simp [freshRows, ih, List.range'_succ]

/-- The rows that refer to `articleID` when the table is `old ++ fresh`, no row
of `old` refers to `articleID` and every row of `fresh` does. -/
theorem attachedRows_append_fresh (s : DB) (articleID : Nat) (old fresh : List ParagraphRow)
    (hs : s.paragraphs = old ++ fresh)
    (hold : ∀ r ∈ old, r.article_id ≠ some articleID)
    (hfresh : ∀ r ∈ fresh, r.article_id = some articleID) :
    attachedRows s articleID = fresh := by
  unfold attachedRows
  rw [hs, List.filter_append]
  have h1 : old.filter (fun r => r.article_id == some articleID) = [] := by
    rw [List.filter_eq_nil_iff]
    intro r hr
    simpa using hold r hr
  have h2 : fresh.filter (fun r => r.article_id == some articleID) = fresh := by
    rw [List.filter_eq_self]
    intro r hr
    simpa using hfresh r hr
  rw [h1, h2, List.nil_append]

/-! ## The lookup by name -/

theorem find?_lowest (P : ArticleRow → Bool) (l : List ArticleRow) (a : ArticleRow)
    (hsorted : (l.map (·.id)).Pairwise (· < ·)) (ha : a ∈ l) (hPa : P a = true)
    (hlow : ∀ b ∈ l, P b = true → a.id ≤ b.id) : l.find? P = some a := by
  induction l with
  | nil => simp at ha
  | cons x xs ih =>
    simp only [List.map_cons, List.pairwise_cons, List.mem_map, forall_exists_index, and_imp,
      forall_apply_eq_imp_iff₂] at hsorted
    by_cases hx : P x = true
    · rw [List.find?_cons_of_pos _ hx]
      rcases List.mem_cons.1 ha with h | h
      · rw [h]
      · have h1 := hsorted.1 a h
        have h2 := hlow x (List.mem_cons_self _ _) hx
        omega
    · rw [List.find?_cons_of_neg _ hx]
      have hax : a ∈ xs := by
        rcases List.mem_cons.1 ha with h | h
        · rw [h] at hPa; exact absurd hPa hx
        · exact h
      exact ih hsorted.2 hax (fun b hb => hlow b (List.mem_cons_of_mem _ hb))

theorem First_found (coll : Collation) (s : DB) (p : Article) (a : ArticleRow) (hwf : s.WF)
    (ha : a ∈ s.articles) (hname : coll a.name p.Name = true)
    (hid : (p.ID = 0 ∧ ∀ b ∈ s.articles, coll b.name p.Name = true → a.id ≤ b.id) ∨
      p.ID = a.id) :
    First coll none s p = .ok a := by
  have hfind : s.articles.find?
      (fun r => coll r.name p.Name && (p.ID == 0 || r.id == p.ID)) = some a := by
    apply find?_lowest _ _ _ hwf.articles_sorted ha
    · rcases hid with ⟨h0, _⟩ | h
      · simp [hname, h0]
      · simp [hname, h]
    · intro b hb hPb
      simp only [Bool.and_eq_true, Bool.or_eq_true, beq_iff_eq] at hPb
      rcases hid with ⟨_, hlow⟩ | h
      · exact hlow b hb hPb.1
      · rcases hPb.2 with h0 | h1
        · have := (hwf.articles_bound a ha).1
          omega
        · omega
  simp only [First, hfind]

theorem First_not_found (coll : Collation) (s : DB) (p : Article)
    (hname : ∀ b ∈ s.articles, coll b.name p.Name = false) :
    First coll none s p = .error "record not found" := by
  have hfind : s.articles.find?
      (fun r => coll r.name p.Name && (p.ID == 0 || r.id == p.ID)) = none := by
    rw [List.find?_eq_none]
    intro b hb
    simp [hname b hb]
  simp only [First, hfind]

/-! ## `Replace` and `Create` on paragraphs that carry no identifier -/

theorem Replace_fresh (s : DB) (article : Article) (content : List Paragraph) (hwf : s.WF)
    (hpar : ∀ q ∈ content, q.ID = 0) :
    Replace Faults.none s article content =
      (none, { s with
        paragraphs := s.paragraphs.map (detach article.ID) ++
          freshRows article.ID s.nextParagraphID content
        nextParagraphID := s.nextParagraphID + content.length }) := by
  have hlt : ∀ x ∈ s.paragraphs, x.id < s.nextParagraphID := fun x hx => (hwf.paragraphs_bound x hx).2
  simp only [Replace, Faults.none, saveParagraphs_fresh article.ID _ _ content hpar hlt,
    List.map_append, Prod.mk.injEq, true_and]
  congr 1
  congr 1
  · apply List.map_congr_left
    intro r hr
    have hnot : r.id ∉ List.range' s.nextParagraphID content.length := by
      intro hmem
      have h1 := (List.mem_range'_1.1 hmem).1
      have h2 := hlt r hr
      omega
    simp [detach, hnot]
  · rw [List.map_congr_left, List.map_id]
    intro r hr
    have hmem : r.id ∈ List.range' s.nextParagraphID content.length := by
      rw [← freshRows_ids article.ID content s.nextParagraphID]
      exact List.mem_map_of_mem _ hr
    simp [hmem]

theorem detach_article_id (articleID : Nat) (r : ParagraphRow) :
    (detach articleID r).article_id ≠ some articleID := by
  unfold detach
  split_ifs with h
  · simp
  · exact h

theorem detach_id (articleID : Nat) (r : ParagraphRow) : (detach articleID r).id = r.id := by
  unfold detach
  split_ifs <;> rfl

theorem update_branch_eq (coll : Collation) (now : Nat) (s : DB) (p : Article) (a : ArticleRow)
    (hwf : s.WF) (ha : a ∈ s.articles) (hname : coll a.name p.Name = true)
    (hid : (p.ID = 0 ∧ ∀ b ∈ s.articles, coll b.name p.Name = true → a.id ≤ b.id) ∨
      p.ID = a.id)
    (hpar : ∀ q ∈ p.Content, q.ID = 0) :
    createOrUpdateArticle coll Faults.none now s (.ok p) =
      (⟨200, .status "updated"⟩, { s with
        paragraphs := s.paragraphs.map (detach a.id) ++ freshRows a.id s.nextParagraphID p.Content
        nextParagraphID := s.nextParagraphID + p.Content.length }) := by
  have h1 : First coll Faults.none.first s p = .ok a := First_found coll s p a hwf ha hname hid
  simp only [createOrUpdateArticle, h1]
  rw [Replace_fresh s _ p.Content hwf hpar]

theorem mem_insertArticleRow (r x : ArticleRow) (l : List ArticleRow) :
    x ∈ insertArticleRow r l ↔ x = r ∨ x ∈ l := by
  induction l with
  | nil => simp [insertArticleRow]
  | cons y ys ih =>
    simp only [insertArticleRow]
    split_ifs
    · simp
    · simp only [List.mem_cons, ih]
      tauto

theorem Create_fresh (now : Nat) (s : DB) (p : Article) (hwf : s.WF)
    (hid : p.ID = 0 ∨ ∀ b ∈ s.articles, b.id ≠ p.ID)
    (hpar : ∀ q ∈ p.Content, q.ID = 0) :
    Create none now s p = .ok
      { articles := insertArticleRow
          ⟨if p.ID = 0 then s.nextArticleID else p.ID,
            if p.CreatedAt = 0 then now else p.CreatedAt, p.Name⟩ s.articles
        paragraphs := s.paragraphs ++
          freshRows (if p.ID = 0 then s.nextArticleID else p.ID) s.nextParagraphID p.Content
        nextArticleID := max s.nextArticleID ((if p.ID = 0 then s.nextArticleID else p.ID) + 1)
        nextParagraphID := s.nextParagraphID + p.Content.length } := by
  have hlt : ∀ x ∈ s.paragraphs, x.id < s.nextParagraphID := fun x hx => (hwf.paragraphs_bound x hx).2
  have hany : s.articles.any (fun r => r.id == p.ID) = false := by
    rw [List.any_eq_false]
    intro b hb
    rcases hid with h | h
    · have := (hwf.articles_bound b hb).1
      simp only [beq_iff_eq]
      omega
    · simpa using h b hb
  simp only [Create, hany, saveParagraphs_fresh _ _ _ p.Content hpar hlt]
  rfl

/-- C1 (as amended): for every store state that contains an Article whose name
compares equal to `n` under the column collation (the one with the lowest
identifier, when several do) and every payload named `n` whose `ID` is absent
or is that Article's identifier and whose paragraphs carry no `ID`,
`createOrUpdateArticle` (no storage failure) answers 200 "updated"; the
`articles` table is unchanged, so the Article keeps its identifier and
`created_at`; the Paragraph rows that refer to it afterwards, listed by
increasing identifier, carry exactly the submitted type, content and metadata
in the submitted order; none of them is a row stored before the call and no
two are the same row.  `getArticles` then returns the Article with exactly
these paragraphs, in the order the backend hands the rows back. -/
theorem createOrUpdateArticle_update (coll : Collation) (now : Nat) (s : DB) (p : Article)
    (a : ArticleRow) (hwf : s.WF) (ha : a ∈ s.articles) (hname : coll a.name p.Name = true)
    (hid : (p.ID = 0 ∧ ∀ b ∈ s.articles, coll b.name p.Name = true → a.id ≤ b.id) ∨
      p.ID = a.id)
    (hpar : ∀ q ∈ p.Content, q.ID = 0) :
    (createOrUpdateArticle coll Faults.none now s (.ok p)).1 = ⟨200, .status "updated"⟩ ∧
    (createOrUpdateArticle coll Faults.none now s (.ok p)).2.articles = s.articles ∧
    (attachedRows (createOrUpdateArticle coll Faults.none now s (.ok p)).2 a.id).map
        (fun r => (r.type, r.content, r.metadata)) =
      p.Content.map (fun q => (q.Type_, q.Content, q.Metadata)) ∧
    (∀ r ∈ attachedRows (createOrUpdateArticle coll Faults.none now s (.ok p)).2 a.id,
      ∀ old ∈ s.paragraphs, r.id ≠ old.id) ∧
    ((attachedRows (createOrUpdateArticle coll Faults.none now s (.ok p)).2 a.id).map
      (·.id)).Pairwise (· < ·) ∧
    ∀ o : RowOrder, ∃ l : List Article,
      (getArticles Faults.none o (createOrUpdateArticle coll Faults.none now s (.ok p)).2).1 =
        ⟨200, .articles l⟩ ∧
      ∃ art ∈ l, art.ID = a.id ∧ art.CreatedAt = a.created_at ∧ art.Name = a.name ∧
        art.Content.Perm
          ((attachedRows (createOrUpdateArticle coll Faults.none now s (.ok p)).2 a.id).map
            (loadRow a.id)) := by
  rw [update_branch_eq coll now s p a hwf ha hname hid hpar]
  have hc := attachedRows_append_fresh
    { s with
      paragraphs := s.paragraphs.map (detach a.id) ++ freshRows a.id s.nextParagraphID p.Content
      nextParagraphID := s.nextParagraphID + p.Content.length }
    a.id (s.paragraphs.map (detach a.id)) (freshRows a.id s.nextParagraphID p.Content) rfl
    (by
      intro r hr
      obtain ⟨r0, _, rfl⟩ := List.mem_map.1 hr
      exact detach_article_id a.id r0)
    (fun r hr => (mem_freshRows a.id p.Content _ r hr).1)
  refine ⟨rfl, rfl, ?_, ?_, ?_, ?_⟩
  · rw [hc]
    exact freshRows_fields a.id p.Content s.nextParagraphID
  · intro r hr old hold
    rw [hc] at hr
    have h1 := (mem_freshRows a.id p.Content _ r hr).2.1
    have h2 := (hwf.paragraphs_bound old hold).2
    omega
  · rw [hc, freshRows_ids]
    exact List.pairwise_lt_range' _ _
  · intro o
    refine ⟨_, rfl, ?_⟩
    simp only [Find, Faults.none, List.mem_map, List.mem_reverse, exists_exists_and_eq_and]
    exact ⟨a, ha, rfl, rfl, rfl, contentOf_perm o _ a.id⟩

/-- C1 (witness): the amended statement at the sample store under a case-insensitive
collation, replacing the content of Article `a` by two paragraphs sent under
the name `A`. -/
theorem createOrUpdateArticle_update_witness :
    (createOrUpdateArticle caseInsensitive Faults.none 9 sampleDB
      (.ok ⟨0, 0, "A", [⟨0, 0, "CODE", "x", "m"⟩, ⟨0, 0, "TEXT", "y", ""⟩]⟩)).1 =
      ⟨200, .status "updated"⟩ ∧
    (attachedRows (createOrUpdateArticle caseInsensitive Faults.none 9 sampleDB
      (.ok ⟨0, 0, "A", [⟨0, 0, "CODE", "x", "m"⟩, ⟨0, 0, "TEXT", "y", ""⟩]⟩)).2 1).map
        (fun r => (r.type, r.content, r.metadata)) = [("CODE", "x", "m"), ("TEXT", "y", "")] :=
  have h := createOrUpdateArticle_update caseInsensitive 9 sampleDB
    ⟨0, 0, "A", [⟨0, 0, "CODE", "x", "m"⟩, ⟨0, 0, "TEXT", "y", ""⟩]⟩ ⟨1, 5, "a"⟩
    sampleDB_WF (by decide) (by decide) (Or.inl (by decide)) (by decide)
  ⟨h.1, h.2.2.1⟩

/-- C1 (counterexample): under a case-insensitive collation.  The sample store holds
Article 1 named `a` with Paragraph 1.  (1) A payload named `a` that carries
`ID` 2 is answered "created", not "updated".  (2) A payload named `a` whose
single paragraph carries `ID` 1 is answered "updated", and the Article then
carries the old row 1 with its old type and content.  (3) When the store holds
Article 1 named `A` and Article 2 named `a`, a payload named `a` is answered
"updated" and Article 2, the one named `a`, has no paragraph: the lookup took
Article 1.  (4) After Article `a` is given the paragraphs `CODE`, `TEXT`,
`getArticles` returns them as `TEXT`, `CODE` when the backend hands back the
rows in another order. -/
theorem createOrUpdateArticle_update_counterexample :
    (∃ a ∈ sampleDB.articles, a.name = "a") ∧
    (createOrUpdateArticle caseInsensitive Faults.none 9 sampleDB (.ok ⟨2, 0, "a", []⟩)).1 =
      ⟨200, .status "created"⟩ ∧
    (createOrUpdateArticle caseInsensitive Faults.none 9 sampleDB
      (.ok ⟨0, 0, "a", [⟨1, 0, "CODE", "x", "m"⟩]⟩)).1 = ⟨200, .status "updated"⟩ ∧
    attachedRows (createOrUpdateArticle caseInsensitive Faults.none 9 sampleDB
      (.ok ⟨0, 0, "a", [⟨1, 0, "CODE", "x", "m"⟩]⟩)).2 1 =
      [⟨1, some 1, "TEXT", "hello", ""⟩] ∧
    (createOrUpdateArticle caseInsensitive Faults.none 9 ⟨[⟨1, 5, "A"⟩, ⟨2, 9, "a"⟩], [], 3, 1⟩
      (.ok ⟨0, 0, "a", [⟨0, 0, "TEXT", "x", ""⟩]⟩)).1 = ⟨200, .status "updated"⟩ ∧
    attachedRows (createOrUpdateArticle caseInsensitive Faults.none 9
      ⟨[⟨1, 5, "A"⟩, ⟨2, 9, "a"⟩], [], 3, 1⟩
      (.ok ⟨0, 0, "a", [⟨0, 0, "TEXT", "x", ""⟩]⟩)).2 2 = [] ∧
    (getArticles Faults.none (RowOrder.rotate 2)
      (createOrUpdateArticle caseInsensitive Faults.none 9 sampleDB
        (.ok ⟨0, 0, "a", [⟨0, 0, "CODE", "x", "m"⟩, ⟨0, 0, "TEXT", "y", ""⟩]⟩)).2).1 =
      ⟨200, .articles [⟨1, 5, "a", [⟨3, 1, "TEXT", "y", ""⟩, ⟨2, 1, "CODE", "x", "m"⟩]⟩]⟩ := by
  decide

theorem create_branch_eq (coll : Collation) (now : Nat) (s : DB) (p : Article) (hwf : s.WF)
    (hname : ∀ b ∈ s.articles, coll b.name p.Name = false)
    (hid : p.ID = 0 ∨ ∀ b ∈ s.articles, b.id ≠ p.ID)
    (hpar : ∀ q ∈ p.Content, q.ID = 0) :
    createOrUpdateArticle coll Faults.none now s (.ok p) =
      (⟨200, .status "created"⟩,
        { articles := insertArticleRow
            ⟨if p.ID = 0 then s.nextArticleID else p.ID,
              if p.CreatedAt = 0 then now else p.CreatedAt, p.Name⟩ s.articles
          paragraphs := s.paragraphs ++
            freshRows (if p.ID = 0 then s.nextArticleID else p.ID) s.nextParagraphID p.Content
          nextArticleID :=
            max s.nextArticleID ((if p.ID = 0 then s.nextArticleID else p.ID) + 1)
          nextParagraphID := s.nextParagraphID + p.Content.length }) := by
  have h1 : First coll Faults.none.first s p = .error "record not found" :=
    First_not_found coll s p hname
  have h2 := Create_fresh now s p hwf hid hpar
  have h3 : Faults.none.create = none := rfl
  simp only [createOrUpdateArticle, h1, h3, h2]

/-- C2 (as amended): for every store state (tables and foreign key valid) and every
payload whose name compares equal, under the column collation, to the name of
no stored Article, whose paragraphs carry no `ID`, and whose own `ID` is
absent or the identifier of no stored Article, `createOrUpdateArticle` (no
storage failure) answers 200 "created", and the list returned by
`getArticles` right after holds an Article with the payload's name, the only
one whose name compares equal to it; it carries as many paragraphs as the
payload, exactly the Paragraph rows that refer to it, and these rows, listed
by increasing identifier, have the submitted type, content and metadata in
the submitted order (whatever the type strings are).  The order of the
paragraphs in the returned Article is the order the backend hands the rows
back. -/
theorem createOrUpdateArticle_create (coll : Collation) (now : Nat) (s : DB) (p : Article)
    (hwf : s.WF) (hfk : s.FK)
    (hname : ∀ b ∈ s.articles, coll b.name p.Name = false)
    (hid : p.ID = 0 ∨ ∀ b ∈ s.articles, b.id ≠ p.ID)
    (hpar : ∀ q ∈ p.Content, q.ID = 0) :
    (createOrUpdateArticle coll Faults.none now s (.ok p)).1 = ⟨200, .status "created"⟩ ∧
    ∀ o : RowOrder, ∃ l : List Article,
      (getArticles Faults.none o (createOrUpdateArticle coll Faults.none now s (.ok p)).2).1 =
        ⟨200, .articles l⟩ ∧
      ∃ a ∈ l, a.Name = p.Name ∧
        a.Content.Perm
          ((attachedRows (createOrUpdateArticle coll Faults.none now s (.ok p)).2 a.ID).map
            (loadRow a.ID)) ∧
        (attachedRows (createOrUpdateArticle coll Faults.none now s (.ok p)).2 a.ID).map
            (fun r => (r.type, r.content, r.metadata)) =
          p.Content.map (fun q => (q.Type_, q.Content, q.Metadata)) ∧
        ((attachedRows (createOrUpdateArticle coll Faults.none now s (.ok p)).2 a.ID).map
          (·.id)).Pairwise (· < ·) ∧
        a.Content.length = p.Content.length ∧
        ∀ b ∈ l, coll b.Name p.Name = true → b = a := by
  rw [create_branch_eq coll now s p hwf hname hid hpar]
  refine ⟨rfl, fun o => ⟨_, rfl, ?_⟩⟩
  have hold : ∀ r ∈ s.paragraphs,
      r.article_id ≠ some (if p.ID = 0 then s.nextArticleID else p.ID) := by
    intro r hr hc
    by_cases h0 : p.ID = 0
    · simp only [h0, if_true] at hc
      have := hwf.owner_bound r hr _ hc
      omega
    · simp only [h0, if_false] at hc
      obtain ⟨b, hb, hbi⟩ := hfk r hr _ hc
      rcases hid with h | h
      · exact h0 h
      · exact h b hb hbi
  have hc := attachedRows_append_fresh
    { articles := insertArticleRow
        ⟨if p.ID = 0 then s.nextArticleID else p.ID,
          if p.CreatedAt = 0 then now else p.CreatedAt, p.Name⟩ s.articles
      paragraphs := s.paragraphs ++
        freshRows (if p.ID = 0 then s.nextArticleID else p.ID) s.nextParagraphID p.Content
      nextArticleID := max s.nextArticleID ((if p.ID = 0 then s.nextArticleID else p.ID) + 1)
      nextParagraphID := s.nextParagraphID + p.Content.length }
    (if p.ID = 0 then s.nextArticleID else p.ID) s.paragraphs
    (freshRows (if p.ID = 0 then s.nextArticleID else p.ID) s.nextParagraphID p.Content) rfl hold
    (fun r hr => (mem_freshRows _ p.Content _ r hr).1)
  simp only [Find, Faults.none, List.mem_map, List.mem_reverse, exists_exists_and_eq_and,
    mem_insertArticleRow]
  refine ⟨_, Or.inl rfl, rfl, ?_, ?_, ?_, ?_, ?_⟩
  · exact contentOf_perm o _ _
  · simp only
    rw [hc]
    exact freshRows_fields _ p.Content s.nextParagraphID
  · simp only
    rw [hc, freshRows_ids]
    exact List.pairwise_lt_range' _ _
  · simp only
    rw [(contentOf_perm o _ _).length_eq, hc, List.length_map]
    have := congrArg List.length (freshRows_ids (if p.ID = 0 then s.nextArticleID else p.ID)
      p.Content s.nextParagraphID)
    simpa using this
  · rintro b ⟨r, hr, rfl⟩ hb
    rcases hr with rfl | hr
    · rfl
    · simp only at hb
      rw [hname r hr] at hb
      exact absurd hb (by simp)

/-- C2 (witness): the amended statement at the sample store under a case-insensitive
collation, with one paragraph of each of the four types. -/
theorem createOrUpdateArticle_create_witness :
    (createOrUpdateArticle caseInsensitive Faults.none 9 sampleDB
      (.ok ⟨0, 0, "b", [⟨0, 0, PRIMARY_HEADER, "t", ""⟩, ⟨0, 0, SECONDARY_HEADER, "u", ""⟩,
        ⟨0, 0, TEXT, "v", "w"⟩, ⟨0, 0, CODE, "x", "go"⟩]⟩)).1 = ⟨200, .status "created"⟩ :=
  (createOrUpdateArticle_create caseInsensitive 9 sampleDB
    ⟨0, 0, "b", [⟨0, 0, PRIMARY_HEADER, "t", ""⟩, ⟨0, 0, SECONDARY_HEADER, "u", ""⟩,
      ⟨0, 0, TEXT, "v", "w"⟩, ⟨0, 0, CODE, "x", "go"⟩]⟩
    sampleDB_WF sampleDB_FK (by decide) (Or.inl rfl) (by decide)).1

/-- C2 (counterexample): under a case-insensitive collation.  The sample store holds
Article 1 named `a` with Paragraph 1 (`TEXT`, `hello`).  (1) A payload named
`A`, the name of no stored Article, is answered "updated", not "created".
(2) A payload named `b` whose single paragraph carries `ID` 1 is answered
"created", and `getArticles` returns Article `b` with the old row 1, not the
submitted `CODE` paragraph.  (3) A payload named `b` with one paragraph of
each of the four types is answered "created", and `getArticles` returns them
in the order `TEXT`, `CODE`, `PRIMARY_HEADER`, `SECONDARY_HEADER` when the
backend hands back the rows starting from row 4. -/
theorem createOrUpdateArticle_create_counterexample :
    (∀ a ∈ sampleDB.articles, a.name ≠ "A" ∧ a.name ≠ "b") ∧
    (createOrUpdateArticle caseInsensitive Faults.none 9 sampleDB (.ok ⟨0, 0, "A", []⟩)).1 =
      ⟨200, .status "updated"⟩ ∧
    (createOrUpdateArticle caseInsensitive Faults.none 9 sampleDB
      (.ok ⟨0, 0, "b", [⟨1, 0, "CODE", "x", "m"⟩]⟩)).1 = ⟨200, .status "created"⟩ ∧
    (getArticles Faults.none RowOrder.byId
      (createOrUpdateArticle caseInsensitive Faults.none 9 sampleDB
        (.ok ⟨0, 0, "b", [⟨1, 0, "CODE", "x", "m"⟩]⟩)).2).1 =
      ⟨200, .articles [⟨2, 9, "b", [⟨1, 2, "TEXT", "hello", ""⟩]⟩, ⟨1, 5, "a", []⟩]⟩ ∧
    (createOrUpdateArticle caseInsensitive Faults.none 9 sampleDB
      (.ok ⟨0, 0, "b", [⟨0, 0, PRIMARY_HEADER, "t", ""⟩, ⟨0, 0, SECONDARY_HEADER, "u", ""⟩,
        ⟨0, 0, TEXT, "v", "w"⟩, ⟨0, 0, CODE, "x", "go"⟩]⟩)).1 = ⟨200, .status "created"⟩ ∧
    (getArticles Faults.none (RowOrder.rotate 3)
      (createOrUpdateArticle caseInsensitive Faults.none 9 sampleDB
        (.ok ⟨0, 0, "b", [⟨0, 0, PRIMARY_HEADER, "t", ""⟩, ⟨0, 0, SECONDARY_HEADER, "u", ""⟩,
          ⟨0, 0, TEXT, "v", "w"⟩, ⟨0, 0, CODE, "x", "go"⟩]⟩)).2).1 =
      ⟨200, .articles
        [⟨2, 9, "b", [⟨4, 2, "TEXT", "v", "w"⟩, ⟨5, 2, "CODE", "x", "go"⟩,
            ⟨2, 2, "PRIMARY_HEADER", "t", ""⟩, ⟨3, 2, "SECONDARY_HEADER", "u", ""⟩]⟩,
          ⟨1, 5, "a", [⟨1, 1, "TEXT", "hello", ""⟩]⟩]⟩ := by
  decide

/-! ## Paragraph types are stored as submitted -/

theorem mem_insertParagraphRow (r x : ParagraphRow) (l : List ParagraphRow) :
    x ∈ insertParagraphRow r l ↔ x = r ∨ x ∈ l := by
  induction l with
  | nil => simp [insertParagraphRow]
  | cons y ys ih =>
    simp only [insertParagraphRow]
    split_ifs
    · simp
    · simp only [List.mem_cons, ih]
      tauto

theorem saveParagraph_types (P : ParaType → Prop) (articleID : Nat)
    (st : List ParagraphRow × Nat × List Nat) (q : Paragraph)
    (hst : ∀ r ∈ st.1, P r.type) (hq : P q.Type_) :
    ∀ r ∈ (saveParagraph articleID st q).1, P r.type := by
  obtain ⟨rows, next, ids⟩ := st
  intro r hr
  simp only [saveParagraph] at hr
  split_ifs at hr
  · rcases (mem_insertParagraphRow _ _ _).1 hr with h | h
    · rw [h]; exact hq
    · exact hst r h
  · obtain ⟨r0, hr0, rfl⟩ := List.mem_map.1 hr
    split_ifs
    · exact hst r0 hr0
    · exact hst r0 hr0
  · rcases (mem_insertParagraphRow _ _ _).1 hr with h | h
    · rw [h]; exact hq
    · exact hst r h

theorem foldl_saveParagraph_types (P : ParaType → Prop) (articleID : Nat)
    (content : List Paragraph) :
    ∀ st : List ParagraphRow × Nat × List Nat,
      (∀ r ∈ st.1, P r.type) → (∀ q ∈ content, P q.Type_) →
      ∀ r ∈ (content.foldl (saveParagraph articleID) st).1, P r.type := by
  induction content with
  | nil => intro st hst _; exact hst
  | cons q qs ih =>
    intro st hst hq
    rw [List.foldl_cons]
    exact ih _ (saveParagraph_types P articleID st q hst (hq q (List.mem_cons_self _ _)))
      (fun x hx => hq x (List.mem_cons_of_mem _ hx))

theorem saveParagraphs_types (P : ParaType → Prop) (articleID : Nat) (rows : List ParagraphRow)
    (next : Nat) (content : List Paragraph)
    (hrows : ∀ r ∈ rows, P r.type) (hq : ∀ q ∈ content, P q.Type_) :
    ∀ r ∈ (saveParagraphs articleID rows next content).1, P r.type :=
  foldl_saveParagraph_types P articleID content (rows, next, []) hrows hq

theorem Replace_types (P : ParaType → Prop) (f : Faults) (s : DB) (article : Article)
    (content : List Paragraph)
    (hs : ∀ r ∈ s.paragraphs, P r.type) (hq : ∀ q ∈ content, P q.Type_) :
    ∀ r ∈ (Replace f s article content).2.paragraphs, P r.type := by
  have h := saveParagraphs_types P article.ID s.paragraphs s.nextParagraphID content hs hq
  unfold Replace
  cases f.replaceSave with
  | some e => exact hs
  | none =>
    cases f.replaceClear with
    | some e => exact h
    | none =>
      intro r hr
      simp only [List.mem_map] at hr
      obtain ⟨r0, hr0, rfl⟩ := hr
      split_ifs
      · exact h r0 hr0
      · exact h r0 hr0

theorem Create_types (P : ParaType → Prop) (fault : Option String) (now : Nat) (s s1 : DB)
    (article : Article)
    (hs : ∀ r ∈ s.paragraphs, P r.type) (hq : ∀ q ∈ article.Content, P q.Type_)
    (hc : Create fault now s article = .ok s1) :
    ∀ r ∈ s1.paragraphs, P r.type := by
  unfold Create at hc
  cases fault with
  | some e => simp at hc
  | none =>
    simp only at hc
    split_ifs at hc
    all_goals
      simp only [Except.ok.injEq] at hc
      subst hc
      exact saveParagraphs_types P _ s.paragraphs s.nextParagraphID article.Content hs hq

theorem createOrUpdateArticle_types (P : ParaType → Prop) (coll : Collation) (f : Faults) (now : Nat) (s : DB)
    (body : Except String Article)
    (hs : ∀ r ∈ s.paragraphs, P r.type)
    (hq : ∀ p, body = .ok p → ∀ q ∈ p.Content, P q.Type_) :
    ∀ r ∈ (createOrUpdateArticle coll f now s body).2.paragraphs, P r.type := by
  cases body with
  | error e => exact hs
  | ok p =>
    have hp := hq p rfl
    unfold createOrUpdateArticle
    simp only
    cases hF : First coll f.first s p with
    | ok row =>
      simp only
      have h := Replace_types P f s
        { p with ID := row.id, CreatedAt := row.created_at, Name := row.name } p.Content hs hp
      cases hR : Replace f s
          { p with ID := row.id, CreatedAt := row.created_at, Name := row.name } p.Content with
      | mk err s1 =>
        rw [hR] at h
        cases err <;> exact h
    | error e =>
      simp only
      cases hC : Create f.create now s p with
      | error e2 => exact hs
      | ok s1 => exact Create_types P f.create now s s1 p hs hp hC

theorem step_types (P : ParaType → Prop) (coll : Collation) (s : DB) (req : Request)
    (hs : ∀ r ∈ s.paragraphs, P r.type)
    (hq : ∀ f now p, req = .post f now (.ok p) → ∀ q ∈ p.Content, P q.Type_) :
    ∀ r ∈ (step coll s req).paragraphs, P r.type := by
  cases req with
  | post f now body =>
    exact createOrUpdateArticle_types P coll f now s body hs
      (fun p hp => hq f now p (by rw [hp]))
  | get f o => exact hs
  | delete f id =>
    simp only [step, deleteArticle_paragraphs]
    exact hs

theorem run_types (P : ParaType → Prop) (coll : Collation) (reqs : List Request) :
    ∀ s : DB, (∀ r ∈ s.paragraphs, P r.type) →
      (∀ f now p, Request.post f now (.ok p) ∈ reqs → ∀ q ∈ p.Content, P q.Type_) →
      ∀ r ∈ (run coll s reqs).paragraphs, P r.type := by
  induction reqs with
  | nil => intro s hs _; exact hs
  | cons req rest ih =>
    intro s hs hq
    unfold run
    rw [List.foldl_cons]
    apply ih (step coll s req)
    · exact step_types P coll s req hs
        (fun f now p hp => hq f now p (by rw [hp]; exact List.mem_cons_self _ _))
    · exact fun f now p hp => hq f now p (List.mem_cons_of_mem _ hp)

theorem freshRows_complete (articleID : Nat) (content : List Paragraph) :
    ∀ (next : Nat) (q : Paragraph), q ∈ content →
      ∃ r ∈ freshRows articleID next content,
        r.type = q.Type_ ∧ r.content = q.Content ∧ r.metadata = q.Metadata := by
  induction content with
  | nil => intro next q h; simp at h
  | cons x xs ih =>
    intro next q h
    rcases List.mem_cons.1 h with h | h
    · subst h
      exact ⟨_, List.mem_cons_self _ _, rfl, rfl, rfl⟩
    · obtain ⟨r, hr, hf⟩ := ih (next + 1) q h
      exact ⟨r, List.mem_cons_of_mem _ hr, hf⟩

theorem createOrUpdateArticle_code_ne_400 (coll : Collation) (f : Faults) (now : Nat) (s : DB) (p : Article) :
    (createOrUpdateArticle coll f now s (.ok p)).1.code ≠ 400 := by
  unfold createOrUpdateArticle
  simp only
  cases First coll f.first s p with
  | ok row =>
    simp only
    cases Replace f s { p with ID := row.id, CreatedAt := row.created_at, Name := row.name }
        p.Content with
    | mk err s1 => cases err <;> simp
  | error e =>
    simp only
    cases Create f.create now s p <;> simp

/-! ## The table invariants hold in every reachable state -/

theorem insertArticleRow_sorted (r : ArticleRow) (l : List ArticleRow)
    (hl : (l.map (·.id)).Pairwise (· < ·)) (hr : ∀ x ∈ l, x.id ≠ r.id) :
    ((insertArticleRow r l).map (·.id)).Pairwise (· < ·) := by
  induction l with
  | nil => simp [insertArticleRow]
  | cons x xs ih =>
    simp only [List.map_cons, List.pairwise_cons, List.mem_map, forall_exists_index, and_imp,
      forall_apply_eq_imp_iff₂] at hl
    have hx := hr x (List.mem_cons_self _ _)
    simp only [insertArticleRow]
    split_ifs with h
    · simp only [List.map_cons, List.pairwise_cons, List.mem_cons, List.mem_map,
        forall_eq_or_imp, forall_exists_index, and_imp, forall_apply_eq_imp_iff₂]
      exact ⟨⟨h, fun y hy => lt_trans h (hl.1 y hy)⟩, hl.1, hl.2⟩
    · simp only [List.map_cons, List.pairwise_cons, List.mem_map, forall_exists_index, and_imp,
        forall_apply_eq_imp_iff₂]
      refine ⟨fun y hy => ?_, ih hl.2 (fun y hy => hr y (List.mem_cons_of_mem _ hy))⟩
      rcases (mem_insertArticleRow _ _ _).1 hy with h1 | h1
      · subst h1; omega
      · exact hl.1 y h1

theorem insertParagraphRow_sorted (r : ParagraphRow) (l : List ParagraphRow)
    (hl : (l.map (·.id)).Pairwise (· < ·)) (hr : ∀ x ∈ l, x.id ≠ r.id) :
    ((insertParagraphRow r l).map (·.id)).Pairwise (· < ·) := by
  induction l with
  | nil => simp [insertParagraphRow]
  | cons x xs ih =>
    simp only [List.map_cons, List.pairwise_cons, List.mem_map, forall_exists_index, and_imp,
      forall_apply_eq_imp_iff₂] at hl
    have hx := hr x (List.mem_cons_self _ _)
    simp only [insertParagraphRow]
    split_ifs with h
    · simp only [List.map_cons, List.pairwise_cons, List.mem_cons, List.mem_map,
        forall_eq_or_imp, forall_exists_index, and_imp, forall_apply_eq_imp_iff₂]
      exact ⟨⟨h, fun y hy => lt_trans h (hl.1 y hy)⟩, hl.1, hl.2⟩
    · simp only [List.map_cons, List.pairwise_cons, List.mem_map, forall_exists_index, and_imp,
        forall_apply_eq_imp_iff₂]
      refine ⟨fun y hy => ?_, ih hl.2 (fun y hy => hr y (List.mem_cons_of_mem _ hy))⟩
      rcases (mem_insertParagraphRow _ _ _).1 hy with h1 | h1
      · subst h1; omega
      · exact hl.1 y h1

theorem saveParagraph_WF (s : DB) (hwf : s.WF) (articleID : Nat)
    (haid : articleID < s.nextArticleID) (ids : List Nat) (q : Paragraph) :
    DB.WF { s with
      paragraphs := (saveParagraph articleID (s.paragraphs, s.nextParagraphID, ids) q).1
      nextParagraphID := (saveParagraph articleID (s.paragraphs, s.nextParagraphID, ids) q).2.1 } := by
  have hb := hwf.paragraphs_bound
  have hnp := hwf.next_pos
  simp only [saveParagraph]
  split_ifs with h0 hex
  · refine ⟨hwf.articles_sorted, hwf.articles_bound, ?_, ?_, ?_, ⟨hnp.1, Nat.succ_pos _⟩⟩
    · exact insertParagraphRow_sorted _ _ hwf.paragraphs_sorted
        (fun x hx => Nat.ne_of_lt (hb x hx).2)
    · intro r hr
      rcases (mem_insertParagraphRow _ _ _).1 hr with h | h
      · subst h; simp only; omega
      · have := hb r h
        simp only; omega
    · intro r hr i hi
      rcases (mem_insertParagraphRow _ _ _).1 hr with h | h
      · subst h
        simp only [Option.some.injEq] at hi
        simp only; omega
      · exact hwf.owner_bound r h i hi
  · have hmap : (s.paragraphs.map (fun r =>
        if r.id = q.ID then { r with article_id := some articleID } else r)).map (·.id) =
        s.paragraphs.map (·.id) := by
      rw [List.map_map]
      apply List.map_congr_left
      intro r _
      simp only [Function.comp]
      split_ifs <;> rfl
    refine ⟨hwf.articles_sorted, hwf.articles_bound, ?_, ?_, ?_, hnp⟩
    · simp only [hmap]; exact hwf.paragraphs_sorted
    · intro r hr
      obtain ⟨r0, hr0, rfl⟩ := List.mem_map.1 hr
      have := hb r0 hr0
      split_ifs <;> exact this
    · intro r hr i hi
      obtain ⟨r0, hr0, rfl⟩ := List.mem_map.1 hr
      split_ifs at hi
      · simp only [Option.some.injEq] at hi
        simp only; omega
      · exact hwf.owner_bound r0 hr0 i hi
  · have hne : ∀ x ∈ s.paragraphs, x.id ≠ q.ID := by
      intro x hx hxe
      apply hex
      rw [List.any_eq_true]
      exact ⟨x, hx, by simpa using hxe⟩
    refine ⟨hwf.articles_sorted, hwf.articles_bound, ?_, ?_, ?_, ⟨hnp.1, ?_⟩⟩
    · exact insertParagraphRow_sorted _ _ hwf.paragraphs_sorted hne
    · intro r hr
      rcases (mem_insertParagraphRow _ _ _).1 hr with h | h
      · subst h
        simp only
        omega
      · have := hb r h
        simp only
        omega
    · intro r hr i hi
      rcases (mem_insertParagraphRow _ _ _).1 hr with h | h
      · subst h
        simp only [Option.some.injEq] at hi
        simp only; omega
      · exact hwf.owner_bound r h i hi
    · simp only
      omega

theorem foldl_saveParagraph_WF (articleID : Nat) (content : List Paragraph) :
    ∀ (s : DB) (ids : List Nat), s.WF → articleID < s.nextArticleID →
      DB.WF { s with
        paragraphs :=
          (content.foldl (saveParagraph articleID) (s.paragraphs, s.nextParagraphID, ids)).1
        nextParagraphID :=
          (content.foldl (saveParagraph articleID) (s.paragraphs, s.nextParagraphID, ids)).2.1 } := by
  induction content with
  | nil => intro s ids hwf _; exact hwf
  | cons q qs ih =>
    intro s ids hwf haid
    have h1 := saveParagraph_WF s hwf articleID haid ids q
    have h2 := ih _ (saveParagraph articleID (s.paragraphs, s.nextParagraphID, ids) q).2.2 h1 haid
    exact h2

theorem saveParagraphs_WF (s : DB) (hwf : s.WF) (articleID : Nat)
    (haid : articleID < s.nextArticleID) (content : List Paragraph) :
    DB.WF { s with
      paragraphs := (saveParagraphs articleID s.paragraphs s.nextParagraphID content).1
      nextParagraphID := (saveParagraphs articleID s.paragraphs s.nextParagraphID content).2.1 } :=
  foldl_saveParagraph_WF articleID content s [] hwf haid

theorem First_ok_mem (coll : Collation) (fault : Option String) (s : DB) (p : Article)
    (row : ArticleRow) (h : First coll fault s p = .ok row) :
    row ∈ s.articles ∧ coll row.name p.Name = true := by
  unfold First at h
  cases fault with
  | some e => simp at h
  | none =>
    simp only at h
    cases hf : s.articles.find? (fun r => coll r.name p.Name && (p.ID == 0 || r.id == p.ID)) with
    | none => rw [hf] at h; simp at h
    | some r =>
      rw [hf] at h
      simp only [Except.ok.injEq] at h
      subst h
      have h1 := List.mem_of_find?_eq_some hf
      have h2 := List.find?_some hf
      simp only [Bool.and_eq_true] at h2
      exact ⟨h1, h2.1⟩

theorem Replace_WF (f : Faults) (s : DB) (article : Article) (content : List Paragraph)
    (hwf : s.WF) (haid : article.ID < s.nextArticleID) :
    (Replace f s article content).2.WF := by
  have h := saveParagraphs_WF s hwf article.ID haid content
  unfold Replace
  cases f.replaceSave with
  | some e => exact hwf
  | none =>
    cases f.replaceClear with
    | some e => exact h
    | none =>
      simp only
      have hmap : ((saveParagraphs article.ID s.paragraphs s.nextParagraphID content).1.map
          (fun r => if r.article_id = some article.ID ∧
              r.id ∉ (saveParagraphs article.ID s.paragraphs s.nextParagraphID content).2.2
            then { r with article_id := none } else r)).map (·.id) =
          (saveParagraphs article.ID s.paragraphs s.nextParagraphID content).1.map (·.id) := by
        rw [List.map_map]
        apply List.map_congr_left
        intro r _
        simp only [Function.comp]
        split_ifs <;> rfl
      refine ⟨h.articles_sorted, h.articles_bound, ?_, ?_, ?_, h.next_pos⟩
      · simp only [hmap]; exact h.paragraphs_sorted
      · intro r hr
        obtain ⟨r0, hr0, rfl⟩ := List.mem_map.1 hr
        have := h.paragraphs_bound r0 hr0
        split_ifs <;> exact this
      · intro r hr i hi
        obtain ⟨r0, hr0, rfl⟩ := List.mem_map.1 hr
        split_ifs at hi
        exact h.owner_bound r0 hr0 i hi

theorem Create_WF (fault : Option String) (now : Nat) (s s1 : DB) (article : Article)
    (hwf : s.WF) (hc : Create fault now s article = .ok s1) : s1.WF := by
  unfold Create at hc
  cases fault with
  | some e => simp at hc
  | none =>
    simp only at hc
    by_cases hany : s.articles.any (fun r => r.id == article.ID) = true
    · simp [hany] at hc
    · simp only [hany, if_false, Except.ok.injEq, Bool.false_eq_true] at hc
      subst hc
      have hne : ∀ x ∈ s.articles, x.id ≠ (if article.ID = 0 then s.nextArticleID else article.ID) := by
        intro x hx
        split_ifs with h0
        · exact Nat.ne_of_lt (hwf.articles_bound x hx).2
        · intro hxe
          apply hany
          rw [List.any_eq_true]
          exact ⟨x, hx, by simpa using hxe⟩
      have hpos : 0 < (if article.ID = 0 then s.nextArticleID else article.ID) := by
        split_ifs with h0
        · exact hwf.next_pos.1
        · omega
      have hwf0 : DB.WF
          { s with
            articles := insertArticleRow
              ⟨if article.ID = 0 then s.nextArticleID else article.ID,
                if article.CreatedAt = 0 then now else article.CreatedAt, article.Name⟩ s.articles
            nextArticleID :=
              max s.nextArticleID ((if article.ID = 0 then s.nextArticleID else article.ID) + 1) } := by
        refine ⟨insertArticleRow_sorted _ _ hwf.articles_sorted hne, ?_, hwf.paragraphs_sorted,
          hwf.paragraphs_bound, ?_, ⟨?_, hwf.next_pos.2⟩⟩
        · intro a ha
          rcases (mem_insertArticleRow _ _ _).1 ha with h | h
          · subst h
            simp only
            omega
          · have := hwf.articles_bound a h
            simp only
            omega
        · intro r hr i hi
          have := hwf.owner_bound r hr i hi
          simp only
          omega
        · simp only
          omega
      exact saveParagraphs_WF _ hwf0 (if article.ID = 0 then s.nextArticleID else article.ID)
        (by simp only; omega) article.Content

theorem Delete_WF (fault : Option String) (s s1 : DB) (id : Nat) (hwf : s.WF)
    (hd : Delete fault s id = .ok s1) : s1.WF := by
  have hs1 := ((Delete_ok_iff fault s s1 id).1 hd).2.2.2
  subst hs1
  refine ⟨hwf.articles_sorted.sublist ((List.filter_sublist _).map _), ?_,
    hwf.paragraphs_sorted, hwf.paragraphs_bound, hwf.owner_bound, hwf.next_pos⟩
  intro a ha
  exact hwf.articles_bound a (List.mem_filter.1 ha).1

theorem createOrUpdateArticle_WF (coll : Collation) (f : Faults) (now : Nat) (s : DB) (body : Except String Article)
    (hwf : s.WF) : (createOrUpdateArticle coll f now s body).2.WF := by
  cases body with
  | error e => exact hwf
  | ok p =>
    unfold createOrUpdateArticle
    simp only
    cases hF : First coll f.first s p with
    | ok row =>
      simp only
      have hrow := (First_ok_mem coll _ s p row hF).1
      have h := Replace_WF f s
        { p with ID := row.id, CreatedAt := row.created_at, Name := row.name } p.Content hwf
        (hwf.articles_bound row hrow).2
      cases hR : Replace f s
          { p with ID := row.id, CreatedAt := row.created_at, Name := row.name } p.Content with
      | mk err s1 =>
        rw [hR] at h
        cases err <;> exact h
    | error e =>
      simp only
      cases hC : Create f.create now s p with
      | error e2 => exact hwf
      | ok s1 => exact Create_WF f.create now s s1 p hwf hC

theorem deleteArticle_WF (f : Faults) (s : DB) (id : String) (hwf : s.WF) :
    (deleteArticle f s id).2.WF := by
  unfold deleteArticle
  cases ParseUint id 32 with
  | none => exact hwf
  | some n =>
    simp only
    cases hD : Delete f.delete s (n % 2 ^ 64) with
    | error e => exact hwf
    | ok s1 => exact Delete_WF f.delete s s1 _ hwf hD

theorem step_WF (coll : Collation) (s : DB) (req : Request) (hwf : s.WF) :
    (step coll s req).WF := by
  cases req with
  | post f now body => exact createOrUpdateArticle_WF coll f now s body hwf
  | get f o => exact hwf
  | delete f id => exact deleteArticle_WF f s id hwf

theorem empty_WF : DB.empty.WF :=
  ⟨by decide, by decide, by decide, by decide, by decide, by decide⟩

/-- Every state reached from the empty store by any sequence of requests, with
any bodies and any backend failures, satisfies the table invariants. -/
theorem run_WF (coll : Collation) (reqs : List Request) :
    ∀ s : DB, s.WF → (run coll s reqs).WF := by
  induction reqs with
  | nil => intro s hwf; exact hwf
  | cons req rest ih =>
    intro s hwf
    unfold run
    rw [List.foldl_cons]
    exact ih (step coll s req) (step_WF coll s req hwf)

/-- C9 (as amended): paragraph types are stored as submitted, without validation.  In
every state reached from the empty store by requests whose decoded payloads
use only the four named types, every stored Paragraph has one of the four
types.  A decoded payload is never answered 400, whatever its paragraph
types; when it carries no identifiers and the backend does not fail, the
answer is 200 and each of its paragraphs is stored with exactly the submitted
type, content and metadata. -/
theorem paragraph_types_stored_as_submitted :
    (∀ (coll : Collation) (reqs : List Request),
      (∀ f now p, Request.post f now (.ok p) ∈ reqs → ∀ q ∈ p.Content, isParaType q.Type_) →
      ∀ r ∈ (run coll DB.empty reqs).paragraphs, isParaType r.type) ∧
    (∀ (coll : Collation) (f : Faults) (now : Nat) (s : DB) (p : Article),
      (createOrUpdateArticle coll f now s (.ok p)).1.code ≠ 400) ∧
    (∀ (coll : Collation) (now : Nat) (s : DB) (p : Article), s.WF → p.ID = 0 → (∀ q ∈ p.Content, q.ID = 0) →
      (createOrUpdateArticle coll Faults.none now s (.ok p)).1.code = 200 ∧
      ∀ q ∈ p.Content, ∃ r ∈ (createOrUpdateArticle coll Faults.none now s (.ok p)).2.paragraphs,
        r.type = q.Type_ ∧ r.content = q.Content ∧ r.metadata = q.Metadata) := by
  refine ⟨fun coll reqs h => run_types isParaType coll reqs DB.empty (by simp [DB.empty]) h,
    createOrUpdateArticle_code_ne_400, ?_⟩
  intro coll now s p hwf hp0 hpar
  cases hF : First coll Faults.none.first s p with
  | ok row =>
    have hres : createOrUpdateArticle coll Faults.none now s (.ok p) =
        (⟨200, .status "updated"⟩, { s with
          paragraphs := s.paragraphs.map (detach row.id) ++
            freshRows row.id s.nextParagraphID p.Content
          nextParagraphID := s.nextParagraphID + p.Content.length }) := by
      simp only [createOrUpdateArticle, hF]
      rw [Replace_fresh s _ p.Content hwf hpar]
    rw [hres]
    refine ⟨rfl, fun q hq => ?_⟩
    obtain ⟨r, hr, hf⟩ := freshRows_complete row.id p.Content s.nextParagraphID q hq
    exact ⟨r, List.mem_append_right _ hr, hf⟩
  | error e =>
    have hC := Create_fresh now s p hwf (Or.inl hp0) hpar
    have h3 : Faults.none.create = none := rfl
    simp only [createOrUpdateArticle, hF, h3, hC]
    refine ⟨trivial, fun q hq => ?_⟩
    obtain ⟨r, hr, hf⟩ := freshRows_complete
      (if p.ID = 0 then s.nextArticleID else p.ID) p.Content s.nextParagraphID q hq
    exact ⟨r, List.mem_append_right _ hr, hf⟩

/-- C9 (witness): the amended statement at the empty store and a payload with a `TEXT`
paragraph. -/
theorem paragraph_types_stored_as_submitted_witness :
    (createOrUpdateArticle caseInsensitive Faults.none 5 DB.empty
      (.ok ⟨0, 0, "a", [⟨0, 0, TEXT, "x", ""⟩]⟩)).1.code = 200 :=
  (paragraph_types_stored_as_submitted.2.2 caseInsensitive 5 DB.empty ⟨0, 0, "a", [⟨0, 0, TEXT, "x", ""⟩]⟩
    empty_WF rfl (by decide)).1

/-- C9 (counterexample): a payload with a paragraph of type `FOO`, sent to the empty store,
is answered 200 "created" and the paragraph is stored with type `FOO`, which
is none of the four named types. -/
theorem paragraph_type_counterexample :
    createOrUpdateArticle caseInsensitive Faults.none 5 DB.empty
      (.ok ⟨0, 0, "a", [⟨0, 0, "FOO", "x", ""⟩]⟩) =
      (⟨200, .status "created"⟩, ⟨[⟨1, 5, "a"⟩], [⟨1, some 1, "FOO", "x", ""⟩], 2, 2⟩) ∧
    ¬ isParaType "FOO" := by
  decide

/-! ## The foreign key holds in every reachable state -/

theorem saveParagraph_owner (A : List ArticleRow) (articleID : Nat)
    (hA : ∃ a ∈ A, a.id = articleID)
    (st : List ParagraphRow × Nat × List Nat) (q : Paragraph)
    (hst : ∀ r ∈ st.1, ∀ i, r.article_id = some i → ∃ a ∈ A, a.id = i) :
    ∀ r ∈ (saveParagraph articleID st q).1, ∀ i, r.article_id = some i → ∃ a ∈ A, a.id = i := by
  obtain ⟨rows, next, ids⟩ := st
  intro r hr i hi
  simp only [saveParagraph] at hr
  split_ifs at hr
  · rcases (mem_insertParagraphRow _ _ _).1 hr with h | h
    · subst h
      simp only [Option.some.injEq] at hi
      subst hi
      exact hA
    · exact hst r h i hi
  · obtain ⟨r0, hr0, rfl⟩ := List.mem_map.1 hr
    split_ifs at hi
    · simp only [Option.some.injEq] at hi
      subst hi
      exact hA
    · exact hst r0 hr0 i hi
  · rcases (mem_insertParagraphRow _ _ _).1 hr with h | h
    · subst h
      simp only [Option.some.injEq] at hi
      subst hi
      exact hA
    · exact hst r h i hi

theorem saveParagraphs_owner (A : List ArticleRow) (articleID : Nat)
    (hA : ∃ a ∈ A, a.id = articleID) (rows : List ParagraphRow) (next : Nat)
    (content : List Paragraph)
    (hrows : ∀ r ∈ rows, ∀ i, r.article_id = some i → ∃ a ∈ A, a.id = i) :
    ∀ r ∈ (saveParagraphs articleID rows next content).1,
      ∀ i, r.article_id = some i → ∃ a ∈ A, a.id = i := by
  unfold saveParagraphs
  have key : ∀ (c : List Paragraph) (st : List ParagraphRow × Nat × List Nat),
      (∀ r ∈ st.1, ∀ i, r.article_id = some i → ∃ a ∈ A, a.id = i) →
      ∀ r ∈ (c.foldl (saveParagraph articleID) st).1,
        ∀ i, r.article_id = some i → ∃ a ∈ A, a.id = i := by
    intro c
    induction c with
    | nil => intro st hst; exact hst
    | cons q qs ih =>
      intro st hst
      rw [List.foldl_cons]
      exact ih _ (saveParagraph_owner A articleID hA st q hst)
  exact key content (rows, next, []) hrows

theorem Replace_FK (f : Faults) (s : DB) (article : Article) (content : List Paragraph)
    (hfk : s.FK) (hA : ∃ a ∈ s.articles, a.id = article.ID) :
    (Replace f s article content).2.FK := by
  have h := saveParagraphs_owner s.articles article.ID hA s.paragraphs s.nextParagraphID
    content hfk
  unfold Replace
  cases f.replaceSave with
  | some e => exact hfk
  | none =>
    cases f.replaceClear with
    | some e => exact h
    | none =>
      intro r hr i hi
      simp only [List.mem_map] at hr
      obtain ⟨r0, hr0, rfl⟩ := hr
      split_ifs at hi
      exact h r0 hr0 i hi

theorem Create_FK (fault : Option String) (now : Nat) (s s1 : DB) (article : Article)
    (hfk : s.FK) (hc : Create fault now s article = .ok s1) : s1.FK := by
  unfold Create at hc
  cases fault with
  | some e => simp at hc
  | none =>
    simp only at hc
    by_cases hany : s.articles.any (fun r => r.id == article.ID) = true
    · simp [hany] at hc
    · simp only [hany, if_false, Except.ok.injEq, Bool.false_eq_true] at hc
      subst hc
      apply saveParagraphs_owner
      · exact ⟨_, (mem_insertArticleRow _ _ _).2 (Or.inl rfl), rfl⟩
      · intro r hr i hi
        obtain ⟨a, ha, hai⟩ := hfk r hr i hi
        exact ⟨a, (mem_insertArticleRow _ _ _).2 (Or.inr ha), hai⟩

theorem Delete_FK (fault : Option String) (s s1 : DB) (id : Nat) (hfk : s.FK)
    (hd : Delete fault s id = .ok s1) : s1.FK := by
  obtain ⟨_, _, hall, hs1⟩ := (Delete_ok_iff fault s s1 id).1 hd
  subst hs1
  intro r hr i hi
  obtain ⟨a, ha, hai⟩ := hfk r hr i hi
  refine ⟨a, List.mem_filter.2 ⟨ha, ?_⟩, hai⟩
  have hne : i ≠ id := by
    intro h
    subst h
    exact hall r hr hi
  simp only [bne_iff_ne, ne_eq]
  omega

theorem createOrUpdateArticle_FK (coll : Collation) (f : Faults) (now : Nat) (s : DB)
    (body : Except String Article) (hfk : s.FK) :
    (createOrUpdateArticle coll f now s body).2.FK := by
  cases body with
  | error e => exact hfk
  | ok p =>
    unfold createOrUpdateArticle
    simp only
    cases hF : First coll f.first s p with
    | ok row =>
      simp only
      have hrow := (First_ok_mem coll _ s p row hF).1
      have h := Replace_FK f s
        { p with ID := row.id, CreatedAt := row.created_at, Name := row.name } p.Content hfk
        ⟨row, hrow, rfl⟩
      cases hR : Replace f s
          { p with ID := row.id, CreatedAt := row.created_at, Name := row.name } p.Content with
      | mk err s1 =>
        rw [hR] at h
        cases err <;> exact h
    | error e =>
      simp only
      cases hC : Create f.create now s p with
      | error e2 => exact hfk
      | ok s1 => exact Create_FK f.create now s s1 p hfk hC

theorem deleteArticle_FK (f : Faults) (s : DB) (id : String) (hfk : s.FK) :
    (deleteArticle f s id).2.FK := by
  unfold deleteArticle
  cases ParseUint id 32 with
  | none => exact hfk
  | some n =>
    simp only
    cases hD : Delete f.delete s (n % 2 ^ 64) with
    | error e => exact hfk
    | ok s1 => exact Delete_FK f.delete s s1 _ hfk hD

theorem empty_FK : DB.empty.FK := by
  intro r hr
  simp [DB.empty] at hr

/-- Every state reached from the empty store by any sequence of requests, with
any bodies and any backend failures, satisfies the foreign key. -/
theorem run_FK (coll : Collation) (reqs : List Request) :
    ∀ s : DB, s.FK → (run coll s reqs).FK := by
  induction reqs with
  | nil => intro s hfk; exact hfk
  | cons req rest ih =>
    intro s hfk
    unfold run
    rw [List.foldl_cons]
    apply ih (step coll s req)
    cases req with
    | post f now body => exact createOrUpdateArticle_FK coll f now s body hfk
    | get f o => exact hfk
    | delete f id => exact deleteArticle_FK f s id hfk

/-! ## Uniqueness of names, for payloads without `ID` and a working lookup -/

theorem insertArticleRow_perm (r : ArticleRow) (l : List ArticleRow) :
    (insertArticleRow r l).Perm (r :: l) := by
  induction l with
  | nil => exact List.Perm.refl _
  | cons x xs ih =>
    simp only [insertArticleRow]
    split_ifs
    · exact List.Perm.refl _
    · exact (List.Perm.cons x ih).trans (List.Perm.swap r x xs)

theorem Replace_articles (f : Faults) (s : DB) (article : Article) (content : List Paragraph) :
    (Replace f s article content).2.articles = s.articles := by
  unfold Replace
  cases f.replaceSave with
  | some e => rfl
  | none => cases f.replaceClear <;> rfl

theorem Create_articles (fault : Option String) (now : Nat) (s s1 : DB) (article : Article)
    (hc : Create fault now s article = .ok s1) :
    ∃ id created, s1.articles = insertArticleRow ⟨id, created, article.Name⟩ s.articles := by
  unfold Create at hc
  cases fault with
  | some e => simp at hc
  | none =>
    simp only at hc
    by_cases hany : s.articles.any (fun r => r.id == article.ID) = true
    · simp [hany] at hc
    · simp only [hany, if_false, Except.ok.injEq, Bool.false_eq_true] at hc
      subst hc
      exact ⟨_, _, rfl⟩

/-- When the lookup runs without a backend failure, the payload carries no
`ID` and the collation holds every name equal to itself,
`createOrUpdateArticle` keeps the names of stored Articles distinct. -/
theorem createOrUpdateArticle_names_unique (coll : Collation) (hrefl : ∀ n, coll n n = true)
    (f : Faults) (now : Nat) (s : DB)
    (body : Except String Article) (hu : NamesUnique s) (hlookup : f.first = none)
    (hid : ∀ p, body = .ok p → p.ID = 0) :
    NamesUnique (createOrUpdateArticle coll f now s body).2 := by
  cases body with
  | error e => exact hu
  | ok p =>
    have hp0 := hid p rfl
    unfold createOrUpdateArticle
    simp only
    cases hF : First coll f.first s p with
    | ok row =>
      simp only
      have h := Replace_articles f s
        { p with ID := row.id, CreatedAt := row.created_at, Name := row.name } p.Content
      cases hR : Replace f s
          { p with ID := row.id, CreatedAt := row.created_at, Name := row.name } p.Content with
      | mk err s1 =>
        rw [hR] at h
        have hs1 : NamesUnique s1 := by
          unfold NamesUnique
          simp only at h
          rw [h]
          exact hu
        cases err <;> exact hs1
    | error e =>
      simp only
      cases hC : Create f.create now s p with
      | error e2 => exact hu
      | ok s1 =>
        obtain ⟨id, created, hs1⟩ := Create_articles f.create now s s1 p hC
        have hnone : ∀ b ∈ s.articles, b.name ≠ p.Name := by
          intro b hb hbn
          rw [hlookup] at hF
          unfold First at hF
          simp only at hF
          cases hf : s.articles.find?
              (fun r => coll r.name p.Name && (p.ID == 0 || r.id == p.ID)) with
          | some r => rw [hf] at hF; simp at hF
          | none =>
            have := List.find?_eq_none.1 hf b hb
            simp [hbn, hp0, hrefl] at this
        unfold NamesUnique
        simp only
        rw [hs1]
        have hperm := (insertArticleRow_perm ⟨id, created, p.Name⟩ s.articles).map (·.name)
        rw [hperm.nodup_iff, List.map_cons, List.nodup_cons]
        refine ⟨?_, hu⟩
        simp only [List.mem_map, not_exists, not_and]
        exact fun b hb => hnone b hb

theorem deleteArticle_names_unique (f : Faults) (s : DB) (id : String) (hu : NamesUnique s) :
    NamesUnique (deleteArticle f s id).2 := by
  unfold deleteArticle
  cases ParseUint id 32 with
  | none => exact hu
  | some n =>
    simp only
    cases hD : Delete f.delete s (n % 2 ^ 64) with
    | error e => exact hu
    | ok s1 =>
      have hs1 := ((Delete_ok_iff _ _ _ _).1 hD).2.2.2
      subst hs1
      exact List.Nodup.sublist ((List.filter_sublist _).map _) hu

/-- In every state reached from a store with distinct names by requests whose
lookups do not fail in the backend and whose payloads carry no `ID`, no two
stored Articles have the same name (the collation holding every name equal
to itself). -/
theorem run_names_unique (coll : Collation) (hrefl : ∀ n, coll n n = true)
    (reqs : List Request) :
    ∀ s : DB, NamesUnique s →
      (∀ f now body, Request.post f now body ∈ reqs →
        f.first = none ∧ ∀ p, body = .ok p → p.ID = 0) →
      NamesUnique (run coll s reqs) := by
  induction reqs with
  | nil => intro s hu _; exact hu
  | cons req rest ih =>
    intro s hu h
    unfold run
    rw [List.foldl_cons]
    apply ih (step coll s req)
    · cases req with
      | post f now body =>
        have := h f now body (List.mem_cons_self _ _)
        exact createOrUpdateArticle_names_unique coll hrefl f now s body hu this.1 this.2
      | get f o => exact hu
      | delete f id => exact deleteArticle_names_unique f s id hu
    · exact fun f now body hb => h f now body (List.mem_cons_of_mem _ hb)

/-- A failure of the replace or of the insert is answered 500 with the
backend's message. -/
theorem createOrUpdateArticle_write_failure (coll : Collation) (f : Faults) (now : Nat) (s : DB) (p : Article)
    (e : String) :
    (∀ row, First coll f.first s p = .ok row → f.replaceSave = some e →
      (createOrUpdateArticle coll f now s (.ok p)).1 = ⟨500, .error e⟩) ∧
    (∀ row, First coll f.first s p = .ok row → f.replaceSave = none → f.replaceClear = some e →
      (createOrUpdateArticle coll f now s (.ok p)).1 = ⟨500, .error e⟩) ∧
    (∀ e0, First coll f.first s p = .error e0 → f.create = some e →
      (createOrUpdateArticle coll f now s (.ok p)).1 = ⟨500, .error e⟩) := by
  refine ⟨fun row hF h1 => ?_, fun row hF h1 h2 => ?_, fun e0 hF h1 => ?_⟩
  · simp [createOrUpdateArticle, hF, Replace, h1]
  · simp [createOrUpdateArticle, hF, Replace, h1, h2]
  · simp [createOrUpdateArticle, hF, Create, h1]

end MdServer
